import Mathlib

/-!
Shallow embedding of the orchestra workflow graph engine
(`src/orchestra/graphing.py`) and its expression dispatch layer
(`src/orchestra/expressions/base.py`), together with theorems settling the
specification claims.

Python values stored as task/transition/graph attributes are embedded as
the inductive `Value` below; Python dicts are association lists with
dictionary update semantics; raising Python code is embedded in
`Except Err`.
-/

namespace Orchestra

/-- Embedding of the Python values the engine stores and passes around:
`None`, booleans, integers, strings, lists and dicts. -/
inductive Value where
  | null : Value
  | bool : Bool → Value
  | int : Int → Value
  | str : String → Value
  | list : List Value → Value
  | dict : List (Value × Value) → Value
deriving Repr

mutual

/-- Boolean equality on embedded values. -/
def Value.beq : Value → Value → Bool
  | .null, .null => true
  | .bool a, .bool b => a == b
  | .int a, .int b => a == b
  | .str a, .str b => a == b
  | .list xs, .list ys => Value.beqList xs ys
  | .dict xs, .dict ys => Value.beqDict xs ys
  | _, _ => false

/-- Boolean equality on lists of embedded values. -/
def Value.beqList : List Value → List Value → Bool
  | [], [] => true
  | x :: xs, y :: ys => Value.beq x y && Value.beqList xs ys
  | _, _ => false

/-- Boolean equality on key-value pair lists of embedded values. -/
def Value.beqDict : List (Value × Value) → List (Value × Value) → Bool
  | [], [] => true
  | (k1, v1) :: xs, (k2, v2) :: ys =>
      Value.beq k1 k2 && Value.beq v1 v2 && Value.beqDict xs ys
  | _, _ => false

end

theorem Value.beqList_iff_of (xs ys : List Value)
    (h : ∀ x ∈ xs, ∀ b, Value.beq x b = true ↔ x = b) :
    Value.beqList xs ys = true ↔ xs = ys := by
  induction xs generalizing ys with
  | nil => cases ys <;> simp [Value.beqList]
  | cons x xs ihx =>
    cases ys with
    | nil => simp [Value.beqList]
    | cons y ys =>
      rw [Value.beqList]
      simp [Bool.and_eq_true, h x (by simp),
        ihx ys (fun z hz b => h z (by simp [hz]) b)]

theorem Value.beqDict_iff_of (xs ys : List (Value × Value))
    (h : ∀ x ∈ xs, ∀ b, (Value.beq x.1 b = true ↔ x.1 = b) ∧
          (Value.beq x.2 b = true ↔ x.2 = b)) :
    Value.beqDict xs ys = true ↔ xs = ys := by
  induction xs generalizing ys with
  | nil => cases ys <;> simp [Value.beqDict]
  | cons x xs ihx =>
    obtain ⟨k1, v1⟩ := x
    cases ys with
    | nil => simp [Value.beqDict]
    | cons y ys =>
      obtain ⟨k2, v2⟩ := y
      rw [Value.beqDict]
      simp [Bool.and_eq_true, (h (k1, v1) (by simp) k2).1,
        (h (k1, v1) (by simp) v2).2,
        ihx ys (fun z hz b => h z (by simp [hz]) b), Prod.ext_iff]

theorem Value.beq_iff_aux :
    ∀ (n : Nat) (a b : Value), sizeOf a ≤ n → (Value.beq a b = true ↔ a = b) := by
  intro n
  induction n with
  | zero =>
    intro a b h
    exact absurd h (by cases a <;> simp)
  | succ n ih =>
    intro a b h
    cases a <;> cases b <;> simp [Value.beq]
    case list.list xs ys =>
      have hxs : ∀ x ∈ xs, ∀ b, Value.beq x b = true ↔ x = b := by
        intro x hx b
        refine ih x b ?_
        have h1 : sizeOf x < sizeOf xs := List.sizeOf_lt_of_mem hx
        have h2 : sizeOf (Value.list xs) = 1 + sizeOf xs := by simp
        omega
      exact Value.beqList_iff_of xs ys hxs
    case dict.dict xs ys =>
      have hxs : ∀ x ∈ xs, ∀ b, (Value.beq x.1 b = true ↔ x.1 = b) ∧
          (Value.beq x.2 b = true ↔ x.2 = b) := by
        intro x hx b
        have h1 : sizeOf x < sizeOf xs := List.sizeOf_lt_of_mem hx
        have h2 : sizeOf (Value.dict xs) = 1 + sizeOf xs := by simp
        obtain ⟨k, v⟩ := x
        have h3 : sizeOf (k, v) = 1 + sizeOf k + sizeOf v := by simp
        exact ⟨ih k b (by omega), ih v b (by omega)⟩
      exact Value.beqDict_iff_of xs ys hxs

theorem Value.beq_iff (a b : Value) : Value.beq a b = true ↔ a = b :=
  Value.beq_iff_aux (sizeOf a) a b (Nat.le_refl _)

instance : DecidableEq Value := fun a b =>
  decidable_of_iff (Value.beq a b = true) (Value.beq_iff a b)

/-- Python truthiness: `None`, `False`, `0`, `""`, `[]`, `{}` are falsy. -/
def truthy : Value → Bool
  | Value.null => false
  | Value.bool b => b
  | Value.int n => n != 0
  | Value.str s => s != ""
  | Value.list xs => !xs.isEmpty
  | Value.dict kvs => !kvs.isEmpty

/-- A Python dict with string keys, as an association list in insertion
order (a real dict never holds a key twice). -/
abbrev Attrs := List (String × Value)

namespace Attrs

/-- Dictionary lookup: value at the key, if present. -/
def get : Attrs → String → Option Value
  | [], _ => none
  | (k', v) :: rest, k => if k' = k then some v else get rest k

/-- `d[k] = v`: replace the value in place if the key is present,
otherwise append the new entry. -/
def set : Attrs → String → Value → Attrs
  | [], k, v => [(k, v)]
  | (k', v') :: rest, k, v =>
      if k' = k then (k, v) :: rest else (k', v') :: set rest k v

/-- `d.update(kvs)`: set every pair in order (last write wins per key). -/
def setAll (a : Attrs) (kvs : Attrs) : Attrs :=
  kvs.foldl (fun acc kv => set acc kv.1 kv.2) a

end Attrs

/-- `d.get(k, dflt)`. -/
def pyGetD (a : Attrs) (k : String) (dflt : Value) : Value :=
  match Attrs.get a k with
  | some v => v
  | none => dflt

/-- The embedded Python exceptions, identified by their semantic content
(the source raises plain `Exception`/`ValueError` with these meanings;
the spec names them `TaskNotFound`, `InvalidState`, etc.). -/
inductive Err where
  | taskNotFound : String → Err
  | transitionNotFound : Err
  | ambiguousTransition : Err
  | invalidState : Value → Err
  | invalidStateTransition : Value → Value → Err
  | keyError : String → Err
  | typeError : Err
deriving Repr, DecidableEq

deriving instance DecidableEq for Except

/-- `d[k]`: lookup that raises `KeyError` when the key is absent. -/
def Attrs.item (a : Attrs) (k : String) : Except Err Value :=
  match Attrs.get a k with
  | some v => Except.ok v
  | none => Except.error (Err.keyError k)

/- ### Dictionary lemmas -/

theorem Attrs.get_set (a : Attrs) (k' k : String) (v : Value) :
    Attrs.get (Attrs.set a k' v) k = if k' = k then some v else Attrs.get a k := by
  induction a with
  | nil => simp [Attrs.set, Attrs.get]
  | cons hd tl ih =>
    obtain ⟨k0, v0⟩ := hd
    by_cases h0 : k0 = k'
    · subst h0
      simp [Attrs.set, Attrs.get]
      by_cases h1 : k0 = k <;> simp [h1]
    · simp [Attrs.set, h0, Attrs.get]
      by_cases h1 : k0 = k
      · subst h1
        have : ¬ (k' = k0) := fun h => h0 h.symm
        simp [this, Attrs.get]
      · simp [h1, ih]

theorem Attrs.set_set_same (a : Attrs) (k : String) (v : Value) :
    Attrs.set (Attrs.set a k v) k v = Attrs.set a k v := by
  induction a with
  | nil => simp [Attrs.set]
  | cons hd tl ih =>
    obtain ⟨k0, v0⟩ := hd
    by_cases h0 : k0 = k
    · simp [Attrs.set, h0]
    · simp [Attrs.set, h0, ih]

theorem Attrs.get_setAll_none (a kvs : Attrs) (k : String)
    (h1 : Attrs.get a k = none) (h2 : Attrs.get kvs k = none) :
    Attrs.get (Attrs.setAll a kvs) k = none := by
  induction kvs generalizing a with
  | nil => simpa [Attrs.setAll] using h1
  | cons hd tl ih =>
    obtain ⟨k0, v0⟩ := hd
    have hk0 : ¬ (k0 = k) := by
      intro h; rw [h] at h2; simp [Attrs.get] at h2
    have h2' : Attrs.get tl k = none := by
      rw [Attrs.get, if_neg hk0] at h2; exact h2
    have h1' : Attrs.get (Attrs.set a k0 v0) k = none := by
      rw [Attrs.get_set, if_neg hk0]; exact h1
    simpa [Attrs.setAll] using ih (Attrs.set a k0 v0) h1' h2'

/- ### Expression dispatch (src/orchestra/expressions/base.py) -/

/-- An expression evaluator: the capability contract of §6, with the
class-level polymorphism of `Evaluator` in `base.py` embedded as a record
of functions held by the registry. The registry itself is passed to the
dispatch functions as a list in iteration order. -/
structure Evaluator where
  type : String
  has_expressions : String → Bool
  validate : String → List Value
  evaluate : String → Value → Value

/-- Modelled from the spec: `orchestra.expressions.utils.format_error` is
not under src/; per §7 an expression error is a record carrying the
evaluator type, the offending expression text, and the message. -/
def format_error (etype : Option String) (statement : String) (message : String) : Value :=
  Value.dict
    [(Value.str "type", match etype with | some t => Value.str t | none => Value.null),
     (Value.str "expression", Value.str statement),
     (Value.str "message", Value.str message)]

mutual

/-- `validate` from `expressions/base.py`: structural recursion over dicts,
lists and strings; for a string, dispatch on how many registered
evaluators claim it. Returns the collected error list (the source wraps it
as `{'errors': ...}` and every recursive call unwraps it again). -/
def validate (evs : List Evaluator) : Value → List Value
  | Value.dict kvs => validateDict evs kvs
  | Value.list xs => validateList evs xs
  | Value.str s =>
      match evs.filter (fun ev => ev.has_expressions s) with
      | [] => []
      | [ev] => ev.validate s
      | _ => [format_error none s "Expression with multiple types is not supported."]
  | _ => []

/-- Dict clause of `validate`: key errors then value errors, per item. -/
def validateDict (evs : List Evaluator) : List (Value × Value) → List Value
  | [] => []
  | (k, v) :: rest => validate evs k ++ validate evs v ++ validateDict evs rest

/-- List clause of `validate`: element errors in order. -/
def validateList (evs : List Evaluator) : List Value → List Value
  | [] => []
  | x :: rest => validate evs x ++ validateList evs rest

end

mutual

/-- `evaluate` from `expressions/base.py`: rebuilds dicts (evaluating keys
and values) and lists; a string goes to the first evaluator whose
`has_expressions` matches, or is returned unchanged; other scalars pass
through. -/
def evaluate (evs : List Evaluator) : Value → Value → Value
  | Value.dict kvs, data => Value.dict (evaluateDict evs kvs data)
  | Value.list xs, data => Value.list (evaluateList evs xs data)
  | Value.str s, data =>
      match evs.find? (fun ev => ev.has_expressions s) with
      | some ev => ev.evaluate s data
      | none => Value.str s
  | v, _ => v

/-- Dict clause of `evaluate`. -/
def evaluateDict (evs : List Evaluator) : List (Value × Value) → Value → List (Value × Value)
  | [], _ => []
  | (k, v) :: rest, data =>
      (evaluate evs k data, evaluate evs v data) :: evaluateDict evs rest data

/-- List clause of `evaluate`. -/
def evaluateList (evs : List Evaluator) : List Value → Value → List Value
  | [], _ => []
  | x :: rest, data => evaluate evs x data :: evaluateList evs rest data

end

/- ### State machine (modelled) -/

/-- Modelled from the spec: the `orchestra.states` module is not under
src/. §4.1 requires a finite declared state set; this is a representative
instance with `running` in-progress and the completed subset below. -/
def ALL_STATES : List String :=
  ["requested", "scheduled", "running", "succeeded", "failed"]

/-- Modelled from the spec: the completed-state subset (§4.1), from which
alone a task's outgoing transitions may be evaluated. -/
def COMPLETED_STATES : List String := ["succeeded", "failed"]

/-- The completed states as stored attribute values. -/
def completedStateValues : List Value := COMPLETED_STATES.map Value.str

/-- Modelled from the spec: the State Machine's directed validity relation
(§4.1). An absent old state admits the initial-capable states; completed
states admit nothing (e.g. completed → running is disallowed). -/
def VALID_STATE_TRANSITIONS : List (Option String × String) :=
  [(none, "requested"), (none, "scheduled"), (none, "running"),
   (some "requested", "scheduled"), (some "requested", "running"),
   (some "requested", "failed"),
   (some "scheduled", "running"), (some "scheduled", "failed"),
   (some "running", "succeeded"), (some "running", "failed")]

/-- Modelled from the spec: interpret a stored state value, failing with
`InvalidState` outside the declared set (§4.1); `None` stands for a task
not yet started. -/
def asStateOpt : Value → Except Err (Option String)
  | Value.null => Except.ok none
  | Value.str s =>
      if s ∈ ALL_STATES then Except.ok (some s)
      else Except.error (Err.invalidState (Value.str s))
  | v => Except.error (Err.invalidState v)

/-- Modelled from the spec: `states.is_transition_valid`. A null new state
(an update carrying no `state` key) requests no state change and is valid,
as §4.3's `update_task` contract (non-state attributes merge without
state-machine validation) requires; otherwise the declared validity
relation decides. -/
def is_transition_valid (old nw : Value) : Except Err Bool := do
  let old? ← asStateOpt old
  let nw? ← asStateOpt nw
  match nw? with
  | none => Except.ok true
  | some s => Except.ok (decide ((old?, s) ∈ VALID_STATE_TRANSITIONS))

/- ### Workflow graph (src/orchestra/graphing.py) -/

/-- One edge of the `networkx.MultiDiGraph`: endpoints, the multigraph
key, and the attribute dict (`criteria`, `satisfied`, ...). -/
structure Edge where
  src : String
  dst : String
  key : Nat
  attrs : Attrs
deriving Repr, DecidableEq

/-- The `WorkflowGraph` state: node list, edge list (in insertion order)
and the graph-level attribute bag holding `state`. -/
structure WGraph where
  nodes : List (String × Attrs)
  edges : List Edge
  graphAttrs : Attrs
deriving Repr, DecidableEq

def WGraph.has_task (g : WGraph) (task_id : String) : Bool :=
  (g.nodes.find? (fun p => p.1 == task_id)).isSome

/-- The attribute dict of a node, when the node exists. -/
def nodeAttrs? (g : WGraph) (task_id : String) : Option Attrs :=
  (g.nodes.find? (fun p => p.1 == task_id)).map (fun p => p.2)

/-- The record `get_task` returns: `{'id': task_id}` updated with the
node's attributes. -/
def taskDict (g : WGraph) (task_id : String) : Attrs :=
  Attrs.setAll [("id", Value.str task_id)] ((nodeAttrs? g task_id).getD [])

def get_task (g : WGraph) (task_id : String) : Except Err Attrs :=
  match nodeAttrs? g task_id with
  | none => Except.error (Err.taskNotFound task_id)
  | some _ => Except.ok (taskDict g task_id)

/-- `get_task_attributes`: every task id mapped to its value of the given
attribute, `None` when absent. -/
def get_task_attributes (g : WGraph) (attrName : String) : Value :=
  Value.dict (g.nodes.map (fun p => (Value.str p.1, pyGetD p.2 attrName Value.null)))

/-- Replace one node's attribute dict. -/
def setNodeAttrs (g : WGraph) (task_id : String) (a : Attrs) : WGraph :=
  { g with nodes := g.nodes.map (fun p => if p.1 == task_id then (p.1, a) else p) }

def update_task (g : WGraph) (task_id : String) (kwargs : Attrs) : Except Err WGraph :=
  match nodeAttrs? g task_id with
  | none => Except.error (Err.taskNotFound task_id)
  | some a => do
    let old := pyGetD a "state" Value.null
    let nw := pyGetD kwargs "state" Value.null
    let ok ← is_transition_valid old nw
    if ok then Except.ok (setNodeAttrs g task_id (Attrs.setAll a kwargs))
    else Except.error (Err.invalidStateTransition old nw)

def add_task (g : WGraph) (task_id : String) (kwargs : Attrs) : Except Err WGraph :=
  if g.has_task task_id then update_task g task_id kwargs
  else Except.ok { g with nodes := g.nodes ++ [(task_id, kwargs)] }

/-- The attribute dict `reset_task` leaves behind: only `name` and
`barrier`, each if previously present. -/
def resetAttrs (a : Attrs) : Attrs :=
  (match Attrs.get a "name" with | some v => [("name", v)] | none => []) ++
  (match Attrs.get a "barrier" with | some v => [("barrier", v)] | none => [])

def reset_task (g : WGraph) (task_id : String) : Except Err WGraph :=
  match nodeAttrs? g task_id with
  | none => Except.error (Err.taskNotFound task_id)
  | some a => Except.ok (setNodeAttrs g task_id (resetAttrs a))

/-- The workflow-level `state` property getter. -/
def WGraph.state (g : WGraph) : Value := pyGetD g.graphAttrs "state" Value.null

/-- The workflow-level `state` property setter. The source raises
`ValueError('State "%s" is not valid.')` for a value outside `ALL_STATES`
(the spec's `InvalidState` error) and `InvalidStateTransition` when the
state machine rejects the pair; either way the prior state is kept. -/
def set_state (g : WGraph) (value : Value) : Except Err WGraph :=
  if value ∈ (ALL_STATES.map Value.str) then do
    let ok ← is_transition_valid g.state value
    if ok then Except.ok { g with graphAttrs := Attrs.set g.graphAttrs "state" value }
    else Except.error (Err.invalidStateTransition g.state value)
  else Except.error (Err.invalidState value)

/- ### Transition operations -/

/-- Lexicographic code-point comparison of character lists (Python string
comparison; agrees with Lean's `String` order). -/
def charListLt : List Char → List Char → Bool
  | [], [] => false
  | [], _ :: _ => true
  | _ :: _, [] => false
  | c1 :: r1, c2 :: r2 =>
      if c1.toNat < c2.toNat then true
      else if c2.toNat < c1.toNat then false
      else charListLt r1 r2

/-- Python `<` on strings: lexicographic by code point. -/
def strLt (a b : String) : Bool := charListLt a.data b.data

/-- Stable insertion: skip the strictly smaller prefix and place the
element before the first not-smaller one (Python `sorted` is stable and
ascending, and the inserted element originally preceded the list). -/
def insertByLt {α : Type} (lt : α → α → Bool) (e : α) : List α → List α
  | [] => [e]
  | x :: xs => if lt x e then x :: insertByLt lt e xs else e :: x :: xs

/-- Stable insertion sort by a strict comparison. -/
def sortByLt {α : Type} (lt : α → α → Bool) : List α → List α
  | [] => []
  | x :: xs => insertByLt lt x (sortByLt lt xs)

/-- `get_next_transitions`: the outgoing edges of a task, sorted by
element 1 of the edge tuple — the destination (neighboring) task id. -/
def get_next_transitions (g : WGraph) (task_id : String) : List Edge :=
  sortByLt (fun a b => strLt a.dst b.dst)
    (g.edges.filter (fun e => e.src == task_id))

/-- `get_prev_transitions`: the incoming edges of a task, sorted — as in
the source — by element 1 of the edge tuple, which for an incoming edge is
the queried task itself, not the neighboring source. -/
def get_prev_transitions (g : WGraph) (task_id : String) : List Edge :=
  sortByLt (fun a b => strLt a.dst b.dst)
    (g.edges.filter (fun e => e.dst == task_id))

/-- The edge filter of `get_transition`: both endpoints must match, and
the criteria attribute equals the given criteria OR the edge key equals
the given key (`edge[2] == key` is false when the key argument is the
default `None`). -/
def transitionMatch (e : Edge) (source destination : String) (key : Option Nat)
    (criteria : Value) : Bool :=
  e.src == source && e.dst == destination &&
    (pyGetD e.attrs "criteria" Value.null == criteria ||
      (match key with | some k => e.key == k | none => false))

/-- `has_transition`: the edges matching both endpoints and the exact
criteria value. -/
def has_transition (g : WGraph) (source destination : String) (criteria : Value) : List Edge :=
  g.edges.filter (fun e =>
    e.src == source && e.dst == destination &&
      pyGetD e.attrs "criteria" Value.null == criteria)

def get_transition (g : WGraph) (source destination : String) (key : Option Nat)
    (criteria : Value) : Except Err Edge :=
  match g.edges.filter (fun e => transitionMatch e source destination key criteria) with
  | [] => Except.error Err.transitionNotFound
  | [e] => Except.ok e
  | _ => Except.error Err.ambiguousTransition

/-- `update_transition`: resolve the transition through `get_transition`
(criteria left at its default `None`), then merge the attributes into the
edge with the resolved key. -/
def update_transition (g : WGraph) (source destination : String) (key : Nat)
    (kwargs : Attrs) : Except Err WGraph := do
  let seq ← get_transition g source destination (some key) Value.null
  Except.ok { g with edges := g.edges.map (fun e =>
      if e.src == source && e.dst == destination && e.key == seq.key
      then { e with attrs := Attrs.setAll e.attrs kwargs } else e) }

def add_transition (g : WGraph) (source destination : String) (criteria : Value) :
    Except Err WGraph := do
  let g1 := if g.has_task source then g
            else { g with nodes := g.nodes ++ [(source, [])] }
  let g2 := if g1.has_task destination then g1
            else { g1 with nodes := g1.nodes ++ [(destination, [])] }
  match has_transition g2 source destination criteria with
  | [] => Except.ok { g2 with edges := g2.edges ++
      [{ src := source, dst := destination,
         key := (g2.edges.filter (fun e => e.src == source && e.dst == destination)).length,
         attrs := [("criteria", criteria)] }] }
  | [seq] => update_transition g2 source destination seq.key [("criteria", criteria)]
  | _ => Except.error Err.ambiguousTransition

/- ### Barrier operations -/

def get_barrier (g : WGraph) (task_id : String) : Except Err Value := do
  let t ← get_task g task_id
  Except.ok (pyGetD t "barrier" Value.null)

/-- `has_barrier`: a non-`None`, non-empty barrier value. -/
def hasBarrierB (b : Value) : Bool := !(b == Value.null) && !(b == Value.str "")

def has_barrier (g : WGraph) (task_id : String) : Except Err Bool := do
  let b ← get_barrier g task_id
  Except.ok (hasBarrierB b)

def set_barrier (g : WGraph) (task_id : String) (value : Value) : Except Err WGraph :=
  update_task g task_id [("barrier", value)]

/-- The barrier attribute a task carries, through the same record
`get_barrier` reads (`None` when absent or the task does not exist). -/
def barrierValOf (g : WGraph) (task_id : String) : Value :=
  pyGetD (taskDict g task_id) "barrier" Value.null

/- ### get_next_tasks -/

/-- Modelled from the spec: `orchestra.utils.dictionary.merge_dicts` is
not under src/; §4.3 step 2 merges the caller context with the
synthesized mapping, the right-hand entries overwriting per key. -/
def dictSet : List (Value × Value) → Value → Value → List (Value × Value)
  | [], k, v => [(k, v)]
  | (k', v') :: rest, k, v =>
      if k' == k then (k, v) :: rest else (k', v') :: dictSet rest k v

/-- Modelled from the spec: shallow dict merge, right side overwriting. -/
def merge_dicts (left right : Value) : Value :=
  match left, right with
  | Value.dict l, Value.dict r => Value.dict (r.foldl (fun acc kv => dictSet acc kv.1 kv.2) l)
  | _, r => r

/-- The evaluation context of `get_next_tasks`: caller context (or `{}`)
merged with the `__task_states` mapping. -/
def mergedCtx (g : WGraph) (context : Value) : Value :=
  merge_dicts (if truthy context then context else Value.dict [])
    (Value.dict [(Value.str "__task_states", get_task_attributes g "state")])

/-- Whether one outgoing transition fires: every element of its `criteria`
attribute evaluates truthy (an empty list fires). A missing `criteria`
key is a `KeyError`; the engine stores criteria as sequences
(`add_transition` writes the given criteria value), and the model requires
the list form here. -/
def edgeFires (evs : List Evaluator) (ctx : Value) (e : Edge) : Except Err Bool := do
  let cv ← Attrs.item e.attrs "criteria"
  match cv with
  | Value.list cl => Except.ok ((cl.map (fun c => evaluate evs c ctx)).all truthy)
  | _ => Except.error Err.typeError

/-- The first loop of `get_next_tasks`: keep the transitions whose
criteria all evaluate truthy, in order. -/
def firedFilter (evs : List Evaluator) (ctx : Value) : List Edge → Except Err (List Edge)
  | [] => Except.ok []
  | e :: rest => do
    let fires ← edgeFires evs ctx e
    let rest' ← firedFilter evs ctx rest
    Except.ok (if fires then e :: rest' else rest')

/-- The fired outgoing transitions of a task (`outbounds` in the source). -/
def firedOf (evs : List Evaluator) (g : WGraph) (task_id : String) (ctx : Value) :
    Except Err (List Edge) :=
  firedFilter evs ctx (get_next_transitions g task_id)

/-- The `satisfied` flag of an edge, with Python `.get` default. -/
def satP (e : Edge) : Bool := truthy (pyGetD e.attrs "satisfied" Value.null)

/-- The inbound edges of a task, in edge-list order (what
`get_prev_transitions` returns, its constant-key sort being the
identity). -/
def edgesTo (g : WGraph) (d : String) : List Edge :=
  g.edges.filter (fun e => e.dst == d)

/-- The number of inbound transitions of a task. -/
def inCount (g : WGraph) (d : String) : Nat := (edgesTo g d).length

/-- The number of inbound transitions of a task marked satisfied. -/
def satCount (g : WGraph) (d : String) : Nat := ((edgesTo g d).filter satP).length

/-- How one edge may evolve through the satisfied-marking loop of
`get_next_tasks`: endpoints and key unchanged, attributes either untouched
or with `satisfied` set to true. -/
def satMono (e1 e2 : Edge) : Prop :=
  e1.src = e2.src ∧ e1.dst = e2.dst ∧ e1.key = e2.key ∧
    (e2.attrs = e1.attrs ∨ e2.attrs = Attrs.set e1.attrs "satisfied" (Value.bool true))

def pyIntOf : Value → Except Err Int
  | Value.int n => Except.ok n
  | _ => Except.error Err.typeError

/-- The barrier threshold: the inbound count for the wildcard, else the
barrier value itself as an integer. -/
def thrOf (bv : Value) (inboundCount : Nat) : Except Err Int :=
  if bv == Value.str "*" then Except.ok (Int.ofNat inboundCount) else pyIntOf bv

/-- The barrier check of `get_next_tasks` for one destination: no barrier
passes; otherwise the count of satisfied inbound transitions must reach
the threshold. -/
def keepCheck (g : WGraph) (d : String) : Except Err Bool := do
  let hb ← has_barrier g d
  if hb then do
    let bv ← get_barrier g d
    let inb := get_prev_transitions g d
    let thr ← thrOf bv inb.length
    Except.ok (decide (¬ (Int.ofNat (inb.filter satP).length < thr)))
  else Except.ok true

/-- One marking step of the loop in `get_next_tasks`: a fired transition
not yet satisfied (per its snapshot attributes) is marked through
`update_transition`. -/
def markStep (g : WGraph) (task_id : String) (e : Edge) : Except Err WGraph :=
  if satP e then Except.ok g
  else update_transition g task_id e.dst e.key [("satisfied", Value.bool true)]

/-- The second loop of `get_next_tasks`: for each fired transition, mark
it satisfied if it is not yet (through `update_transition`), run the
barrier check on the live graph, and collect the eligible destinations. -/
def gntLoop (task_id : String) : List Edge → WGraph → Except Err (List (String × Value) × WGraph)
  | [], g => Except.ok ([], g)
  | e :: rest, g => do
    let g1 ← markStep g task_id e
    let keep ← keepCheck g1 e.dst
    if keep then do
      let t ← get_task g1 e.dst
      let nm ← Attrs.item t "name"
      let (ts, g2) ← gntLoop task_id rest g1
      Except.ok ((e.dst, nm) :: ts, g2)
    else gntLoop task_id rest g1

/-- Python comparison of sort keys, as far as the engine sorts them. -/
def valLt : Value → Value → Bool
  | Value.str a, Value.str b => strLt a b
  | Value.int a, Value.int b => decide (a < b)
  | _, _ => false

/-- `get_next_tasks`: empty unless the task's state is completed; then
evaluate each outgoing transition's criteria in the merged context, mark
the fired ones satisfied, apply barrier checks and return the eligible
`{'id', 'name'}` records sorted by name, with the updated graph. -/
def get_next_tasks (evs : List Evaluator) (g : WGraph) (task_id : String)
    (context : Value) : Except Err (List (String × Value) × WGraph) := do
  let task ← get_task g task_id
  let st ← Attrs.item task "state"
  if st ∈ completedStateValues then do
    let outs ← firedOf evs g task_id (mergedCtx g context)
    let (ts, g2) ← gntLoop task_id outs g
    Except.ok (sortByLt (fun a b => valLt a.2 b.2) ts, g2)
  else Except.ok ([], g)

/- ### Serialization -/

/-- The node-link document of §6: directed/multigraph flags, the graph
attribute bag, node records, and per node its outgoing links
(neighbor id, edge key, attributes). -/
structure SGraph where
  directed : Bool
  multigraph : Bool
  graphAttrs : Attrs
  nodes : List (String × Attrs)
  adjacency : List (List (String × Nat × Attrs))
deriving Repr, DecidableEq

/-- Modelled from the spec: `serialize` delegates to the external networkx
adjacency-data serializer, producing the node-link document of §6. -/
def serialize (g : WGraph) : SGraph :=
  { directed := true, multigraph := true, graphAttrs := g.graphAttrs,
    nodes := g.nodes,
    adjacency := g.nodes.map (fun p =>
      (g.edges.filter (fun e => e.src == p.1)).map (fun e => (e.dst, e.key, e.attrs))) }

/-- Modelled from the spec: `deserialize` rebuilds the graph from the
node-link document of §6 through the external networkx adjacency reader. -/
def deserialize (d : SGraph) : WGraph :=
  { nodes := d.nodes,
    edges := (List.zipWith (fun (p : String × Attrs) adj =>
        adj.map (fun (l : String × Nat × Attrs) => Edge.mk p.1 l.1 l.2.1 l.2.2))
      d.nodes d.adjacency).flatten,
    graphAttrs := d.graphAttrs }

/-- The last value a key takes in an update list (`dict.update` applies
the pairs in order, so the last write wins). -/
def Attrs.getLast : Attrs → String → Option Value
  | [], _ => none
  | (k', v) :: rest, k =>
      match Attrs.getLast rest k with
      | some w => some w
      | none => if k' = k then some v else none

/- ### Concrete graphs used by witnesses and counterexamples -/

/-- A two-task graph: `A` running with a truthy outgoing criterion into
`B`, which never started. -/
def wgC2 : WGraph :=
  { nodes := [("A", [("name", Value.str "A"), ("state", Value.str "running")]),
              ("B", [("name", Value.str "B")])],
    edges := [⟨"A", "B", 0, [("criteria", Value.list [Value.bool true])]⟩],
    graphAttrs := [] }

/-- A graph for the reset witness: `D` completed, carrying a barrier, with
a satisfied inbound transition from `A`. -/
def wgC6 : WGraph :=
  { nodes := [("A", [("name", Value.str "A"), ("state", Value.str "succeeded")]),
              ("D", [("name", Value.str "D"), ("state", Value.str "succeeded"),
                     ("barrier", Value.int 2)])],
    edges := [⟨"A", "D", 0,
               [("criteria", Value.list []), ("satisfied", Value.bool true)]⟩],
    graphAttrs := [] }

/-- A one-task graph with `T` running, for state-update witnesses. -/
def wgC3 : WGraph :=
  { nodes := [("T", [("name", Value.str "T"), ("state", Value.str "running")])],
    edges := [], graphAttrs := [] }

/-- A graph whose workflow state and task state are both `succeeded`, for
invalid-transition witnesses. -/
def wgC8 : WGraph :=
  { nodes := [("T", [("state", Value.str "succeeded")])],
    edges := [], graphAttrs := [("state", Value.str "succeeded")] }

/-- A fan-out graph for the barrier witness: completed `A` feeds `B`
(no barrier) and `D` (barrier 2, with a second inbound from `B`). -/
def wgC1 : WGraph :=
  { nodes := [("A", [("name", Value.str "A"), ("state", Value.str "succeeded")]),
              ("B", [("name", Value.str "B")]),
              ("D", [("name", Value.str "D"), ("barrier", Value.int 2)])],
    edges := [⟨"A", "B", 0, [("criteria", Value.list [])]⟩,
              ⟨"A", "D", 0, [("criteria", Value.list [])]⟩,
              ⟨"B", "D", 0, [("criteria", Value.list [])]⟩],
    graphAttrs := [] }

/-- The graph `get_next_tasks` returns on `wgC1`: both outgoing
transitions of `A` marked satisfied. -/
def wgC1out : WGraph :=
  { nodes := wgC1.nodes,
    edges := [⟨"A", "B", 0, [("criteria", Value.list []),
                             ("satisfied", Value.bool true)]⟩,
              ⟨"A", "D", 0, [("criteria", Value.list []),
                             ("satisfied", Value.bool true)]⟩,
              ⟨"B", "D", 0, [("criteria", Value.list [])]⟩],
    graphAttrs := [] }

/-- The fired edge of `wgC1` into `B`, as snapshotted by the loop. -/
def eAB : Edge := ⟨"A", "B", 0, [("criteria", Value.list [])]⟩

/-- The fired edge of `wgC1` into `D`, as snapshotted by the loop. -/
def eAD : Edge := ⟨"A", "D", 0, [("criteria", Value.list [])]⟩

/-- A toy evaluator for witnesses: recognizes the strings "AB" and
"BOTH". -/
def evA : Evaluator :=
  { type := "alpha",
    has_expressions := fun s => s == "AB" || s == "BOTH",
    validate := fun s => [format_error (some "alpha") s "alpha error"],
    evaluate := fun s _ => Value.str s }

/-- A second toy evaluator: recognizes "CD" and "BOTH", so "BOTH" is
claimed by two languages at once. -/
def evB : Evaluator :=
  { type := "beta",
    has_expressions := fun s => s == "CD" || s == "BOTH",
    validate := fun s => [format_error (some "beta") s "beta error"],
    evaluate := fun s _ => Value.str s }

/-- Two parallel transitions between `s` and `d`: key 0 with the default
`None` criteria, key 1 with a real criteria value. -/
def wgC10 : WGraph :=
  { nodes := [("s", []), ("d", [])],
    edges := [⟨"s", "d", 0, [("criteria", Value.null)]⟩,
              ⟨"s", "d", 1, [("criteria", Value.str "x")]⟩],
    graphAttrs := [] }

/-- The second (key 1) edge of `wgC10`. -/
def eC10 : Edge := ⟨"s", "d", 1, [("criteria", Value.str "x")]⟩

/-- Inbound edges of `t` inserted from source `b` first, then source `a`:
the order `get_prev_transitions` must reverse if it really sorts by the
neighboring source id. -/
def wgC7 : WGraph :=
  { nodes := [("t", []), ("b", []), ("a", [])],
    edges := [⟨"b", "t", 0, [("criteria", Value.list [])]⟩,
              ⟨"a", "t", 0, [("criteria", Value.list [])]⟩],
    graphAttrs := [] }

/-- Outbound edges of `s` inserted toward `b` first, then toward `a`. -/
def wgC7n : WGraph :=
  { nodes := [("s", []), ("b", []), ("a", [])],
    edges := [⟨"s", "b", 0, [("criteria", Value.list [])]⟩,
              ⟨"s", "a", 0, [("criteria", Value.list [])]⟩],
    graphAttrs := [] }

/- ### General lemmas about the embedded operations -/

@[simp] theorem ok_bind {α β : Type} (a : α) (f : α → Except Err β) :
    (Except.ok a >>= f : Except Err β) = f a := rfl

@[simp] theorem error_bind {α β : Type} (e : Err) (f : α → Except Err β) :
    (Except.error e >>= f : Except Err β) = Except.error e := rfl

theorem get_task_of_some (g : WGraph) (task_id : String) (a : Attrs)
    (hex : nodeAttrs? g task_id = some a) :
    get_task g task_id = Except.ok (taskDict g task_id) := by
  unfold get_task
  rw [hex]

theorem Attrs.get_setAll (a kvs : Attrs) (k : String) :
    Attrs.get (Attrs.setAll a kvs) k =
      match Attrs.getLast kvs k with
      | some v => some v
      | none => Attrs.get a k := by
  induction kvs generalizing a with
  | nil => rfl
  | cons hd tl ih =>
    obtain ⟨k0, v0⟩ := hd
    have hstep : Attrs.setAll a ((k0, v0) :: tl) = Attrs.setAll (Attrs.set a k0 v0) tl := by
      simp [Attrs.setAll]
    rw [hstep, ih]
    cases htl : Attrs.getLast tl k with
    | some w => simp [Attrs.getLast, htl]
    | none =>
      by_cases hk : k0 = k <;> simp [Attrs.getLast, htl, Attrs.get_set, hk]

theorem asStateOpt_str (s : String) :
    asStateOpt (Value.str s) =
      if s ∈ ALL_STATES then Except.ok (some s)
      else Except.error (Err.invalidState (Value.str s)) := rfl

theorem is_transition_valid_null (old : Value) (old? : Option String)
    (hold : asStateOpt old = Except.ok old?) :
    is_transition_valid old Value.null = Except.ok true := by
  unfold is_transition_valid
  rw [hold]
  rfl

theorem update_task_of_checked (g : WGraph) (task_id : String) (kwargs a : Attrs)
    (b : Bool) (hex : nodeAttrs? g task_id = some a)
    (hv : is_transition_valid (pyGetD a "state" Value.null)
        (pyGetD kwargs "state" Value.null) = Except.ok b) :
    update_task g task_id kwargs =
      if b then Except.ok (setNodeAttrs g task_id (Attrs.setAll a kwargs))
      else Except.error (Err.invalidStateTransition (pyGetD a "state" Value.null)
        (pyGetD kwargs "state" Value.null)) := by
  unfold update_task
  rw [hex]
  simp [hv]

theorem update_task_of_check_error (g : WGraph) (task_id : String) (kwargs a : Attrs)
    (er : Err) (hex : nodeAttrs? g task_id = some a)
    (hv : is_transition_valid (pyGetD a "state" Value.null)
        (pyGetD kwargs "state" Value.null) = Except.error er) :
    update_task g task_id kwargs = Except.error er := by
  unfold update_task
  rw [hex]
  simp [hv]

/- ### C2 -/

/-- C2: for every task whose current state is not in the completed-state
subset, `get_next_tasks` returns an empty sequence and the graph —
transitions and their `satisfied` flags included — unchanged, regardless
of the task's outgoing transitions and criteria. -/
theorem get_next_tasks_not_completed (evs : List Evaluator) (g : WGraph)
    (task_id : String) (context : Value) (a : Attrs) (st : Value)
    (hex : nodeAttrs? g task_id = some a)
    (hst : Attrs.get (taskDict g task_id) "state" = some st)
    (hnc : st ∉ completedStateValues) :
    get_next_tasks evs g task_id context = Except.ok ([], g) := by
  have hitem : Attrs.item (taskDict g task_id) "state" = Except.ok st := by
    unfold Attrs.item; rw [hst]
  unfold get_next_tasks
  rw [get_task_of_some g task_id a hex]
  simp [hitem, hnc]

/-- Witness for C2 on a concrete graph: a running task with a truthy
outgoing criterion still yields no next tasks. -/
theorem get_next_tasks_not_completed_witness :
    nodeAttrs? wgC2 "A" = some [("name", Value.str "A"), ("state", Value.str "running")] ∧
    Attrs.get (taskDict wgC2 "A") "state" = some (Value.str "running") ∧
    Value.str "running" ∉ completedStateValues ∧
    get_next_tasks [] wgC2 "A" Value.null = Except.ok ([], wgC2) :=
  ⟨by decide, by decide, by decide,
    get_next_tasks_not_completed [] wgC2 "A" Value.null
      [("name", Value.str "A"), ("state", Value.str "running")]
      (Value.str "running") (by decide) (by decide) (by decide)⟩

/- ### C9 -/

/-- C9: `get_next_tasks` raises rather than returning empty when its
precondition fails: a nonexistent task id raises the task-does-not-exist
error, and an existing task with no `state` attribute at all raises the
lookup failure (`KeyError`) on the missing `state` key. -/
theorem get_next_tasks_precondition_errors (evs : List Evaluator) (g : WGraph)
    (task_id : String) (context : Value) :
    (nodeAttrs? g task_id = none →
      get_next_tasks evs g task_id context = Except.error (Err.taskNotFound task_id)) ∧
    (∀ a, nodeAttrs? g task_id = some a → Attrs.get a "state" = none →
      get_next_tasks evs g task_id context = Except.error (Err.keyError "state")) := by
  constructor
  · intro hnone
    unfold get_next_tasks get_task
    rw [hnone]
    rfl
  · intro a hex hst
    have hid : Attrs.get ([("id", Value.str task_id)] : Attrs) "state" = none := by
      simp [Attrs.get]
    have htd : Attrs.get (taskDict g task_id) "state" = none := by
      unfold taskDict
      rw [hex]
      exact Attrs.get_setAll_none _ a "state" hid hst
    have hitem : Attrs.item (taskDict g task_id) "state" =
        Except.error (Err.keyError "state") := by
      unfold Attrs.item; rw [htd]
    unfold get_next_tasks
    rw [get_task_of_some g task_id a hex]
    simp [hitem]

/-- Witness for C9 at concrete inputs: a missing task id and a task that
never started. -/
theorem get_next_tasks_precondition_errors_witness :
    get_next_tasks [] wgC2 "zz" Value.null = Except.error (Err.taskNotFound "zz") ∧
    get_next_tasks [] wgC2 "B" Value.null = Except.error (Err.keyError "state") :=
  ⟨(get_next_tasks_precondition_errors [] wgC2 "zz" Value.null).1 (by decide),
   (get_next_tasks_precondition_errors [] wgC2 "B" Value.null).2
     [("name", Value.str "B")] (by decide) (by decide)⟩

/- ### C6 -/

/-- C6: `reset_task` on an existing task keeps exactly the prior `name`
and `barrier` entries (each only when previously present) and nothing
else — `state` in particular is cleared — while every transition (its
`satisfied` flag included), the graph attributes, and every other task
are untouched; on a nonexistent task it fails with the task-not-found
error. -/
theorem reset_task_spec (g : WGraph) (task_id : String) :
    (nodeAttrs? g task_id = none →
      reset_task g task_id = Except.error (Err.taskNotFound task_id)) ∧
    (∀ a, nodeAttrs? g task_id = some a →
      reset_task g task_id = Except.ok (setNodeAttrs g task_id (resetAttrs a)) ∧
      Attrs.get (resetAttrs a) "name" = Attrs.get a "name" ∧
      Attrs.get (resetAttrs a) "barrier" = Attrs.get a "barrier" ∧
      (∀ k, k ≠ "name" → k ≠ "barrier" → Attrs.get (resetAttrs a) k = none) ∧
      (setNodeAttrs g task_id (resetAttrs a)).edges = g.edges ∧
      (setNodeAttrs g task_id (resetAttrs a)).graphAttrs = g.graphAttrs ∧
      (∀ p ∈ g.nodes, p.1 ≠ task_id →
        p ∈ (setNodeAttrs g task_id (resetAttrs a)).nodes)) := by
  constructor
  · intro hnone
    unfold reset_task
    rw [hnone]
  · intro a hex
    refine ⟨by unfold reset_task; rw [hex], ?_, ?_, ?_, rfl, rfl, ?_⟩
    · unfold resetAttrs
      cases hn : Attrs.get a "name" <;> cases hb : Attrs.get a "barrier" <;>
        simp [Attrs.get]
    · unfold resetAttrs
      cases hn : Attrs.get a "name" <;> cases hb : Attrs.get a "barrier" <;>
        simp [Attrs.get]
    · intro k hkn hkb
      unfold resetAttrs
      cases hn : Attrs.get a "name" <;> cases hb : Attrs.get a "barrier" <;>
        simp [Attrs.get, Ne.symm hkn, Ne.symm hkb]
    · intro p hp hne
      unfold setNodeAttrs
      simp only [List.mem_map]
      refine ⟨p, hp, ?_⟩
      have : (p.1 == task_id) = false := by
        simp [hne]
      rw [this]
      simp

/-- Witness for C6 on a concrete graph: resetting a succeeded task with a
barrier keeps name and barrier only and leaves the inbound satisfied flag
set. -/
theorem reset_task_spec_witness :
    reset_task wgC6 "D" =
      Except.ok (setNodeAttrs wgC6 "D" (resetAttrs
        [("name", Value.str "D"), ("state", Value.str "succeeded"),
         ("barrier", Value.int 2)])) ∧
    resetAttrs [("name", Value.str "D"), ("state", Value.str "succeeded"),
        ("barrier", Value.int 2)] =
      [("name", Value.str "D"), ("barrier", Value.int 2)] ∧
    (setNodeAttrs wgC6 "D" [("name", Value.str "D"), ("barrier", Value.int 2)]).edges
      = wgC6.edges ∧
    reset_task wgC6 "zz" = Except.error (Err.taskNotFound "zz") :=
  ⟨((reset_task_spec wgC6 "D").2 _ (by decide)).1, by decide, by decide,
   (reset_task_spec wgC6 "zz").1 (by decide)⟩

/- ### C3 -/

/-- C3: `update_task` fails with the task-not-found error on a nonexistent
task. When the update carries no `state` entry the state-machine check
sees a null new state and passes, so every given attribute is merged in
with the last write winning per key; when it carries a state, the pair
(current, new) is validated and an invalid pair fails with
`InvalidStateTransition` — the failing operation returns no new graph, so
the task keeps its prior attributes. -/
theorem update_task_spec (g : WGraph) (task_id : String) (kwargs : Attrs) :
    (nodeAttrs? g task_id = none →
      update_task g task_id kwargs = Except.error (Err.taskNotFound task_id)) ∧
    (∀ a, nodeAttrs? g task_id = some a →
      ((∃ old?, asStateOpt (pyGetD a "state" Value.null) = Except.ok old?) →
        pyGetD kwargs "state" Value.null = Value.null →
        update_task g task_id kwargs =
          Except.ok (setNodeAttrs g task_id (Attrs.setAll a kwargs))) ∧
      (is_transition_valid (pyGetD a "state" Value.null)
          (pyGetD kwargs "state" Value.null) = Except.ok true →
        update_task g task_id kwargs =
          Except.ok (setNodeAttrs g task_id (Attrs.setAll a kwargs))) ∧
      (is_transition_valid (pyGetD a "state" Value.null)
          (pyGetD kwargs "state" Value.null) = Except.ok false →
        update_task g task_id kwargs =
          Except.error (Err.invalidStateTransition (pyGetD a "state" Value.null)
            (pyGetD kwargs "state" Value.null))) ∧
      (∀ k, Attrs.get (Attrs.setAll a kwargs) k =
        match Attrs.getLast kwargs k with
        | some v => some v
        | none => Attrs.get a k)) := by
  refine ⟨?_, ?_⟩
  · intro hnone
    unfold update_task
    rw [hnone]
  · intro a hex
    refine ⟨?_, ?_, ?_, fun k => Attrs.get_setAll a kwargs k⟩
    · rintro ⟨old?, hold⟩ hnw
      have hv : is_transition_valid (pyGetD a "state" Value.null)
          (pyGetD kwargs "state" Value.null) = Except.ok true := by
        rw [hnw]
        exact is_transition_valid_null _ _ hold
      simpa using update_task_of_checked g task_id kwargs a true hex hv
    · intro hv
      simpa using update_task_of_checked g task_id kwargs a true hex hv
    · intro hv
      simpa using update_task_of_checked g task_id kwargs a false hex hv

/-- Witness for C3: a missing task, an attribute-only update, a valid
state change and an invalid one, on concrete graphs. -/
theorem update_task_spec_witness :
    update_task wgC3 "zz" [] = Except.error (Err.taskNotFound "zz") ∧
    update_task wgC3 "T" [("color", Value.str "red")] =
      Except.ok (setNodeAttrs wgC3 "T" (Attrs.setAll
        [("name", Value.str "T"), ("state", Value.str "running")]
        [("color", Value.str "red")])) ∧
    update_task wgC3 "T" [("state", Value.str "succeeded")] =
      Except.ok (setNodeAttrs wgC3 "T" (Attrs.setAll
        [("name", Value.str "T"), ("state", Value.str "running")]
        [("state", Value.str "succeeded")])) ∧
    update_task wgC3 "T" [("state", Value.str "requested")] =
      Except.error (Err.invalidStateTransition (Value.str "running")
        (Value.str "requested")) :=
  ⟨(update_task_spec wgC3 "zz" []).1 (by decide),
   (((update_task_spec wgC3 "T" [("color", Value.str "red")]).2
      [("name", Value.str "T"), ("state", Value.str "running")] (by decide)).1
      ⟨some "running", by decide⟩ (by decide)),
   (((update_task_spec wgC3 "T" [("state", Value.str "succeeded")]).2
      [("name", Value.str "T"), ("state", Value.str "running")]
      (by decide)).2.1 (by decide)),
   (((update_task_spec wgC3 "T" [("state", Value.str "requested")]).2
      [("name", Value.str "T"), ("state", Value.str "running")]
      (by decide)).2.2.1 (by decide))⟩

/- ### C8 -/

/-- C8: setting the workflow state to a value outside the declared state
set fails with the invalid-state error, as does a task state update to an
undeclared value; a structurally disallowed transition between declared
states fails with `InvalidStateTransition` carrying both states. The
failing operation returns no new graph, so the prior state is unchanged. -/
theorem state_machine_error_spec :
    (∀ (g : WGraph) (v : Value), v ∉ ALL_STATES.map Value.str →
      set_state g v = Except.error (Err.invalidState v)) ∧
    (∀ (g : WGraph) (s0 s : String), g.state = Value.str s0 → s0 ∈ ALL_STATES →
      s ∈ ALL_STATES → (some s0, s) ∉ VALID_STATE_TRANSITIONS →
      set_state g (Value.str s) =
        Except.error (Err.invalidStateTransition (Value.str s0) (Value.str s))) ∧
    (∀ (g : WGraph) (task_id : String) (a kwargs : Attrs) (old? : Option String)
        (s : String),
      nodeAttrs? g task_id = some a →
      asStateOpt (pyGetD a "state" Value.null) = Except.ok old? →
      pyGetD kwargs "state" Value.null = Value.str s → s ∉ ALL_STATES →
      update_task g task_id kwargs = Except.error (Err.invalidState (Value.str s))) ∧
    (∀ (g : WGraph) (task_id : String) (a kwargs : Attrs) (s0 s : String),
      nodeAttrs? g task_id = some a →
      pyGetD a "state" Value.null = Value.str s0 → s0 ∈ ALL_STATES →
      pyGetD kwargs "state" Value.null = Value.str s → s ∈ ALL_STATES →
      (some s0, s) ∉ VALID_STATE_TRANSITIONS →
      update_task g task_id kwargs =
        Except.error (Err.invalidStateTransition (Value.str s0) (Value.str s))) := by
  refine ⟨?_, ?_, ?_, ?_⟩
  · intro g v hv
    unfold set_state
    rw [if_neg hv]
  · intro g s0 s hstate hs0 hs hnot
    have hmem : Value.str s ∈ ALL_STATES.map Value.str :=
      List.mem_map_of_mem _ hs
    have hv : is_transition_valid (Value.str s0) (Value.str s) = Except.ok false := by
      unfold is_transition_valid
      rw [asStateOpt_str, if_pos hs0]
      simp [asStateOpt_str, hs, hnot]
    unfold set_state
    rw [if_pos hmem]
    simp [hstate, hv]
  · intro g task_id a kwargs old? s hex hold hnw hs
    have herr : is_transition_valid (pyGetD a "state" Value.null)
        (pyGetD kwargs "state" Value.null) =
        Except.error (Err.invalidState (Value.str s)) := by
      rw [hnw]
      unfold is_transition_valid
      rw [hold]
      simp [asStateOpt_str, hs]
    exact update_task_of_check_error g task_id kwargs a _ hex herr
  · intro g task_id a kwargs s0 s hex hpg hs0 hnw hs hnot
    have hv : is_transition_valid (pyGetD a "state" Value.null)
        (pyGetD kwargs "state" Value.null) = Except.ok false := by
      rw [hnw, hpg]
      unfold is_transition_valid
      rw [asStateOpt_str, if_pos hs0]
      simp [asStateOpt_str, hs, hnot]
    have h := update_task_of_checked g task_id kwargs a false hex hv
    rw [hpg, hnw] at h
    simpa using h

/-- Witness for C8 on concrete graphs: an undeclared workflow state, a
completed-to-running workflow transition, an undeclared task state, and a
completed-to-running task transition. -/
theorem state_machine_error_spec_witness :
    set_state wgC8 (Value.str "bogus") =
      Except.error (Err.invalidState (Value.str "bogus")) ∧
    set_state wgC8 (Value.str "running") =
      Except.error (Err.invalidStateTransition (Value.str "succeeded")
        (Value.str "running")) ∧
    update_task wgC8 "T" [("state", Value.str "bogus")] =
      Except.error (Err.invalidState (Value.str "bogus")) ∧
    update_task wgC8 "T" [("state", Value.str "running")] =
      Except.error (Err.invalidStateTransition (Value.str "succeeded")
        (Value.str "running")) :=
  ⟨state_machine_error_spec.1 wgC8 (Value.str "bogus") (by decide),
   state_machine_error_spec.2.1 wgC8 "succeeded" "running" (by decide) (by decide)
     (by decide) (by decide),
   state_machine_error_spec.2.2.1 wgC8 "T" [("state", Value.str "succeeded")]
     [("state", Value.str "bogus")] (some "succeeded") "bogus" (by decide)
     (by decide) (by decide) (by decide),
   state_machine_error_spec.2.2.2 wgC8 "T" [("state", Value.str "succeeded")]
     [("state", Value.str "running")] "succeeded" "running" (by decide) (by decide)
     (by decide) (by decide) (by decide) (by decide)⟩

/- ### C4 -/

/-- C4: for a string, `validate` yields no error when no registered
evaluator claims it, delegates to the single claiming evaluator's own
`validate` when exactly one does, and yields exactly one aggregated
multiple-types error (never one per evaluator) when several do; over
dicts and lists it recurses into keys, values and elements, concatenating
their errors in order. -/
theorem validate_dispatch_spec (evs : List Evaluator) :
    (∀ s, evs.filter (fun ev => ev.has_expressions s) = [] →
      validate evs (Value.str s) = []) ∧
    (∀ s ev, evs.filter (fun e2 => e2.has_expressions s) = [ev] →
      validate evs (Value.str s) = ev.validate s) ∧
    (∀ s, 2 ≤ (evs.filter (fun ev => ev.has_expressions s)).length →
      validate evs (Value.str s) =
        [format_error none s "Expression with multiple types is not supported."]) ∧
    (∀ kvs, validate evs (Value.dict kvs) =
      (kvs.map (fun kv => validate evs kv.1 ++ validate evs kv.2)).flatten) ∧
    (∀ xs, validate evs (Value.list xs) =
      (xs.map (fun x => validate evs x)).flatten) := by
  refine ⟨?_, ?_, ?_, ?_, ?_⟩
  · intro s hf
    simp only [validate]
    rw [hf]
  · intro s ev hf
    simp only [validate]
    rw [hf]
  · intro s hlen
    simp only [validate]
    cases hf : evs.filter (fun ev => ev.has_expressions s) with
    | nil => rw [hf] at hlen; simp at hlen
    | cons x rest =>
      cases rest with
      | nil => rw [hf] at hlen; simp at hlen
      | cons y rest2 => rfl
  · intro kvs
    induction kvs with
    | nil => simp [validate, validateDict]
    | cons kv rest ih =>
      obtain ⟨k, v⟩ := kv
      simp only [validate] at ih ⊢
      simp only [validateDict, ih, List.map_cons, List.flatten_cons,
        List.append_assoc]
  · intro xs
    induction xs with
    | nil => simp [validate, validateList]
    | cons x rest ih =>
      simp only [validate] at ih ⊢
      simp only [validateList, ih, List.map_cons, List.flatten_cons]

/-- Witness for C4: concrete strings claimed by zero, one and two of the
toy evaluators, and a dict mixing the last two. -/
theorem validate_dispatch_spec_witness :
    validate [evA, evB] (Value.str "plain") = [] ∧
    validate [evA, evB] (Value.str "AB") = evA.validate "AB" ∧
    validate [evA, evB] (Value.str "BOTH") =
      [format_error none "BOTH" "Expression with multiple types is not supported."] ∧
    validate [evA, evB] (Value.dict [(Value.str "AB", Value.str "BOTH")]) =
      ([validate [evA, evB] (Value.str "AB") ++
        validate [evA, evB] (Value.str "BOTH")]).flatten :=
  ⟨(validate_dispatch_spec [evA, evB]).1 "plain" rfl,
   (validate_dispatch_spec [evA, evB]).2.1 "AB" evA rfl,
   (validate_dispatch_spec [evA, evB]).2.2.1 "BOTH" (by decide),
   (validate_dispatch_spec [evA, evB]).2.2.2.1 [(Value.str "AB", Value.str "BOTH")]⟩

/- ### C10 -/

/-- C10: `get_transition` matches an edge between the endpoints when its
criteria attribute equals the given criteria OR its key equals the given
key — a disjunction — and consequently, with two parallel transitions
where one carries the default `None` criteria, a query naming the other
edge uniquely by key still fails with the more-than-one-match error. -/
theorem get_transition_disjunctive_match :
    (∀ (g : WGraph) (source destination : String) (key : Option Nat)
        (criteria : Value) (e : Edge),
      get_transition g source destination key criteria = Except.ok e →
      e ∈ g.edges ∧ e.src = source ∧ e.dst = destination ∧
        (pyGetD e.attrs "criteria" Value.null = criteria ∨ key = some e.key)) ∧
    ((wgC10.edges.filter (fun e => e.src == "s" && e.dst == "d" && e.key == 1)).length
      = 1) ∧
    (get_transition wgC10 "s" "d" (some 1) Value.null =
      Except.error Err.ambiguousTransition) := by
  refine ⟨?_, by decide, by decide⟩
  intro g source destination key criteria e hok
  unfold get_transition at hok
  have hmem : e ∈ g.edges.filter
      (fun e2 => transitionMatch e2 source destination key criteria) := by
    cases hf : g.edges.filter
        (fun e2 => transitionMatch e2 source destination key criteria) with
    | nil =>
      rw [hf] at hok
      exact Except.noConfusion hok
    | cons x rest =>
      cases rest with
      | nil =>
        rw [hf] at hok
        simp only [Except.ok.injEq] at hok
        subst hok
        exact List.mem_singleton_self x
      | cons y rest2 =>
        rw [hf] at hok
        exact Except.noConfusion hok
  have h2 := List.mem_filter.mp hmem
  refine ⟨h2.1, ?_⟩
  have hm := h2.2
  simp only [transitionMatch, Bool.and_eq_true, Bool.or_eq_true, beq_iff_eq] at hm
  obtain ⟨⟨hsrc, hdst⟩, hdisj⟩ := hm
  refine ⟨hsrc, hdst, ?_⟩
  rcases hdisj with hcrit | hkey
  · exact Or.inl hcrit
  · right
    cases key with
    | none => simp at hkey
    | some k =>
      simp only [beq_iff_eq] at hkey
      rw [hkey]

/-- Witness for C10: the only edge matching by criteria alone is returned
and satisfies the disjunctive match. -/
theorem get_transition_disjunctive_match_witness :
    eC10 ∈ wgC10.edges ∧ eC10.src = "s" ∧ eC10.dst = "d" ∧
    (pyGetD eC10.attrs "criteria" Value.null = Value.str "x" ∨
      (none : Option Nat) = some eC10.key) :=
  get_transition_disjunctive_match.1 wgC10 "s" "d" none (Value.str "x")
    eC10 (by decide)

/- ### C7 -/

/-- C7 (divergence): `get_next_transitions` does return the outgoing
transitions sorted by the neighboring (destination) task id, but
`get_prev_transitions` sorts the incoming edge tuples by their element 1 —
the queried task itself, a constant — so incoming transitions keep raw
insertion order: with inbound edges inserted from `b` and then from `a`,
the sources come back as `b, a`, not sorted by the neighboring source id. -/
theorem get_prev_transitions_not_neighbor_sorted :
    (get_next_transitions wgC7n "s").map Edge.dst = ["a", "b"] ∧
    get_prev_transitions wgC7 "t" =
      [⟨"b", "t", 0, [("criteria", Value.list [])]⟩,
       ⟨"a", "t", 0, [("criteria", Value.list [])]⟩] ∧
    (get_prev_transitions wgC7 "t").map Edge.src = ["b", "a"] ∧
    strLt "a" "b" = true ∧
    (get_prev_transitions wgC7 "t").map Edge.src ≠ ["a", "b"] := by
  refine ⟨by decide, by decide, by decide, by decide, by decide⟩

/- ### C5 -/

theorem edges_perm_buckets {α : Type} (keyOf : α → String) :
    ∀ (keys : List String) (l : List α), keys.Nodup →
      (∀ x ∈ l, keyOf x ∈ keys) →
      (keys.map (fun k => l.filter (fun x => keyOf x == k))).flatten.Perm l := by
  intro keys
  induction keys with
  | nil =>
    intro l _ hcov
    have hl : l = [] := by
      cases l with
      | nil => rfl
      | cons x xs => exact absurd (hcov x (by simp)) (by simp)
    rw [hl]
    simp
  | cons k ks ih =>
    intro l hnd hcov
    have hk : k ∉ ks := (List.nodup_cons.mp hnd).1
    have hnd' : ks.Nodup := (List.nodup_cons.mp hnd).2
    have hbucket : ∀ k2 ∈ ks,
        l.filter (fun x => keyOf x == k2) =
        (l.filter (fun x => !(keyOf x == k))).filter (fun x => keyOf x == k2) := by
      intro k2 hk2
      rw [List.filter_filter]
      apply List.filter_congr
      intro x _
      by_cases hx : keyOf x = k2
      · have hne : ¬ (k2 = k) := fun hh => hk (hh ▸ hk2)
        simp [hx, hne]
      · simp [hx]
    have hcov' : ∀ x ∈ l.filter (fun x => !(keyOf x == k)), keyOf x ∈ ks := by
      intro x hx
      have h1 := List.mem_filter.mp hx
      have h2 := hcov x h1.1
      have h3 : keyOf x ≠ k := by
        intro hh
        rw [hh] at h1
        simp at h1
      simpa [h3] using h2
    have hmapeq : ks.map (fun k2 => l.filter (fun x => keyOf x == k2)) =
        ks.map (fun k2 => (l.filter (fun x => !(keyOf x == k))).filter
          (fun x => keyOf x == k2)) :=
      List.map_congr_left hbucket
    have hstep : ((k :: ks).map (fun k2 => l.filter (fun x => keyOf x == k2))).flatten
        = l.filter (fun x => keyOf x == k) ++
            (ks.map (fun k2 => (l.filter (fun x => !(keyOf x == k))).filter
              (fun x => keyOf x == k2))).flatten := by
      rw [List.map_cons, List.flatten_cons, hmapeq]
    rw [hstep]
    have hp1 : List.Perm
        (l.filter (fun x => keyOf x == k) ++
          (ks.map (fun k2 => (l.filter (fun x => !(keyOf x == k))).filter
            (fun x => keyOf x == k2))).flatten)
        (l.filter (fun x => keyOf x == k) ++ l.filter (fun x => !(keyOf x == k))) :=
      List.Perm.append_left _ (ih (l.filter (fun x => !(keyOf x == k))) hnd' hcov')
    exact hp1.trans (List.filter_append_perm _ l)

/-- C5: `deserialize ∘ serialize` reproduces the graph: the node list with
every task attribute verbatim, the graph attribute bag (so the `state`
attribute), and the transition multiset — endpoints, keys, criteria and
satisfied flags all preserved (the node-link reader regroups edges by
source node, hence equality as a multiset). Hypotheses are the networkx
representation invariants: node ids are unique and every edge source is a
node. -/
theorem serialize_roundtrip (g : WGraph)
    (hnd : (g.nodes.map Prod.fst).Nodup)
    (hsrc : ∀ e ∈ g.edges, e.src ∈ g.nodes.map Prod.fst) :
    (deserialize (serialize g)).nodes = g.nodes ∧
    (deserialize (serialize g)).graphAttrs = g.graphAttrs ∧
    (deserialize (serialize g)).state = g.state ∧
    (deserialize (serialize g)).edges.Perm g.edges := by
  refine ⟨rfl, rfl, rfl, ?_⟩
  have hbucket : ∀ (p : String × Attrs),
      ((g.edges.filter (fun e => e.src == p.1)).map
        (fun e => Edge.mk p.1 e.dst e.key e.attrs)) =
      g.edges.filter (fun e => e.src == p.1) := by
    intro p
    have h1 : ∀ e ∈ g.edges.filter (fun e => e.src == p.1),
        Edge.mk p.1 e.dst e.key e.attrs = e := by
      intro e he
      have h2 := (List.mem_filter.mp he).2
      simp only [beq_iff_eq] at h2
      cases e
      simp_all
    rw [List.map_congr_left h1]
    simp
  have hzip : (deserialize (serialize g)).edges =
      (g.nodes.map (fun p => g.edges.filter (fun e => e.src == p.1))).flatten := by
    show (List.zipWith _ g.nodes (g.nodes.map _)).flatten = _
    rw [List.zipWith_map_right, List.zipWith_same]
    congr 1
    apply List.map_congr_left
    intro p _
    rw [List.map_map]
    exact hbucket p
  rw [hzip]
  have hform : g.nodes.map (fun p => g.edges.filter (fun e => e.src == p.1)) =
      (g.nodes.map Prod.fst).map (fun k => g.edges.filter (fun e => e.src == k)) := by
    rw [List.map_map]
    rfl
  rw [hform]
  exact edges_perm_buckets Edge.src (g.nodes.map Prod.fst) g.edges hnd hsrc

/-- Witness for C5: the round trip on a concrete in-flight graph with
criteria, satisfied flags and a workflow state. -/
theorem serialize_roundtrip_witness :
    (deserialize (serialize wgC6)).nodes = wgC6.nodes ∧
    (deserialize (serialize wgC6)).graphAttrs = wgC6.graphAttrs ∧
    (deserialize (serialize wgC6)).state = wgC6.state ∧
    (deserialize (serialize wgC6)).edges.Perm wgC6.edges :=
  serialize_roundtrip wgC6 (by decide) (by decide)

/- ### C1: lemmas about the marking loop -/

theorem charListLt_irrefl : ∀ l : List Char, charListLt l l = false := by
  intro l
  induction l with
  | nil => rfl
  | cons c r ih => simp [charListLt, ih]

theorem strLt_irrefl (s : String) : strLt s s = false := charListLt_irrefl s.data

theorem sortByLt_all_false {α : Type} (lt : α → α → Bool) :
    ∀ (l : List α), (∀ x ∈ l, ∀ y ∈ l, lt x y = false) → sortByLt lt l = l := by
  intro l
  induction l with
  | nil => intro _; rfl
  | cons x xs ih =>
    intro h
    have hxs : sortByLt lt xs = xs :=
      ih (fun a ha b hb => h a (by simp [ha]) b (by simp [hb]))
    rw [sortByLt, hxs]
    cases xs with
    | nil => rfl
    | cons y ys =>
      rw [insertByLt, h y (by simp) x (by simp)]
      simp

theorem mem_insertByLt {α : Type} (lt : α → α → Bool) (a e : α) :
    ∀ l : List α, a ∈ insertByLt lt e l ↔ a = e ∨ a ∈ l := by
  intro l
  induction l with
  | nil => simp [insertByLt]
  | cons x xs ih =>
    rw [insertByLt]
    by_cases hc : lt x e = true
    · simp only [hc, if_true, List.mem_cons, ih]
      tauto
    · simp only [Bool.not_eq_true] at hc
      simp only [hc, Bool.false_eq_true, if_false, List.mem_cons]

theorem mem_sortByLt {α : Type} (lt : α → α → Bool) (a : α) :
    ∀ l : List α, a ∈ sortByLt lt l ↔ a ∈ l := by
  intro l
  induction l with
  | nil => simp [sortByLt]
  | cons x xs ih => simp [sortByLt, mem_insertByLt, ih]

theorem get_prev_transitions_eq_edgesTo (g : WGraph) (d : String) :
    get_prev_transitions g d = edgesTo g d := by
  unfold get_prev_transitions edgesTo
  apply sortByLt_all_false
  intro x hx y hy
  have hxd := (List.mem_filter.mp hx).2
  have hyd := (List.mem_filter.mp hy).2
  simp only [beq_iff_eq] at hxd hyd
  rw [hxd, hyd]
  exact strLt_irrefl d

theorem satMono_refl (e : Edge) : satMono e e := ⟨rfl, rfl, rfl, Or.inl rfl⟩

theorem satMono_trans {a b c : Edge} (h1 : satMono a b) (h2 : satMono b c) :
    satMono a c := by
  obtain ⟨hs1, hd1, hk1, ha1⟩ := h1
  obtain ⟨hs2, hd2, hk2, ha2⟩ := h2
  refine ⟨hs1.trans hs2, hd1.trans hd2, hk1.trans hk2, ?_⟩
  rcases ha1 with ha1 | ha1 <;> rcases ha2 with ha2 | ha2
  · exact Or.inl (ha2.trans ha1)
  · rw [ha1] at ha2
    exact Or.inr ha2
  · rw [ha2, ha1]
    exact Or.inr rfl
  · rw [ha2, ha1, Attrs.set_set_same]
    exact Or.inr rfl

theorem forall2_satMono_refl : ∀ l : List Edge, List.Forall₂ satMono l l := by
  intro l
  induction l with
  | nil => exact List.Forall₂.nil
  | cons x xs ih => exact List.Forall₂.cons (satMono_refl x) ih

theorem forall2_satMono_trans : ∀ {l1 l2 l3 : List Edge},
    List.Forall₂ satMono l1 l2 → List.Forall₂ satMono l2 l3 →
    List.Forall₂ satMono l1 l3 := by
  intro l1 l2 l3 h1
  induction h1 generalizing l3 with
  | nil =>
    intro h2
    cases h2
    exact List.Forall₂.nil
  | cons hab h1t ih =>
    intro h2
    cases h2 with
    | cons hbc h2t => exact List.Forall₂.cons (satMono_trans hab hbc) (ih h2t)

theorem satP_mono {e1 e2 : Edge} (h : satMono e1 e2) (h1 : satP e1 = true) :
    satP e2 = true := by
  rcases h.2.2.2 with ha | ha
  · rw [satP, ha]
    exact h1
  · rw [satP, ha, pyGetD, Attrs.get_set]
    simp [truthy]

theorem forall2_filter_dst (d : String) : ∀ {l1 l2 : List Edge},
    List.Forall₂ satMono l1 l2 →
    List.Forall₂ satMono (l1.filter (fun e => e.dst == d))
      (l2.filter (fun e => e.dst == d)) := by
  intro l1 l2 h
  induction h with
  | nil => exact List.Forall₂.nil
  | cons hab ht ih =>
    rename_i a b l1t l2t
    by_cases hd : a.dst = d
    · have hbd : b.dst = d := hab.2.1 ▸ hd
      simp only [List.filter_cons, hd, hbd, beq_self_eq_true, if_true]
      exact List.Forall₂.cons hab ih
    · have hbd : ¬ (b.dst = d) := hab.2.1 ▸ hd
      simp only [List.filter_cons, beq_iff_eq, hd, hbd, if_false]
      exact ih

theorem countP_satP_mono : ∀ {l1 l2 : List Edge}, List.Forall₂ satMono l1 l2 →
    (l1.filter satP).length ≤ (l2.filter satP).length := by
  intro l1 l2 h
  induction h with
  | nil => exact Nat.le_refl 0
  | cons hab ht ih =>
    rename_i a b l1t l2t
    cases hsa : satP a with
    | true =>
      have hsb : satP b = true := satP_mono hab hsa
      simp only [List.filter_cons, hsa, hsb, if_true, List.length_cons]
      exact Nat.succ_le_succ ih
    | false =>
      simp only [List.filter_cons, hsa, Bool.false_eq_true, if_false]
      cases hsb : satP b with
      | true =>
        simp only [if_true, List.length_cons]
        exact Nat.le_succ_of_le ih
      | false =>
        simp only [Bool.false_eq_true, if_false]
        exact ih

theorem satCount_mono (g g2 : WGraph) (d : String)
    (h : List.Forall₂ satMono g.edges g2.edges) : satCount g d ≤ satCount g2 d :=
  countP_satP_mono (forall2_filter_dst d h)

theorem inCount_eq_of_forall2 (g g2 : WGraph) (d : String)
    (h : List.Forall₂ satMono g.edges g2.edges) : inCount g d = inCount g2 d :=
  (forall2_filter_dst d h).length_eq

theorem satCount_le_inCount (g : WGraph) (d : String) : satCount g d ≤ inCount g d :=
  List.length_filter_le _ _

theorem barrierValOf_nodes_eq (g g2 : WGraph) (d : String)
    (h : g2.nodes = g.nodes) : barrierValOf g2 d = barrierValOf g d := by
  unfold barrierValOf taskDict nodeAttrs?
  rw [h]

theorem taskDict_nodes_eq (g g2 : WGraph) (d : String)
    (h : g2.nodes = g.nodes) : taskDict g2 d = taskDict g d := by
  unfold taskDict nodeAttrs?
  rw [h]

theorem get_task_ok_inv (g : WGraph) (d : String) (t : Attrs)
    (h : get_task g d = Except.ok t) :
    t = taskDict g d ∧ nodeAttrs? g d ≠ none := by
  unfold get_task at h
  cases hna : nodeAttrs? g d with
  | none =>
    rw [hna] at h
    exact Except.noConfusion h
  | some a =>
    rw [hna] at h
    simp only [Except.ok.injEq] at h
    exact ⟨h.symm, by simp⟩

theorem get_barrier_eq (g : WGraph) (d : String) (h : nodeAttrs? g d ≠ none) :
    get_barrier g d = Except.ok (barrierValOf g d) := by
  cases hna : nodeAttrs? g d with
  | none => exact absurd hna h
  | some a =>
    unfold get_barrier barrierValOf
    rw [get_task_of_some g d a hna]
    rfl

theorem has_barrier_ok_inv (g : WGraph) (d : String) (hb : Bool)
    (h : has_barrier g d = Except.ok hb) :
    hb = hasBarrierB (barrierValOf g d) ∧
      get_barrier g d = Except.ok (barrierValOf g d) := by
  unfold has_barrier at h
  cases hgb : get_barrier g d with
  | error er =>
    rw [hgb] at h
    exact Except.noConfusion h
  | ok bv =>
    have hex : nodeAttrs? g d ≠ none := by
      unfold get_barrier get_task at hgb
      cases hna : nodeAttrs? g d with
      | none =>
        rw [hna] at hgb
        exact Except.noConfusion hgb
      | some a => simp
    have hgb2 := get_barrier_eq g d hex
    rw [hgb] at hgb2 h
    simp only [ok_bind, Except.ok.injEq] at h
    simp only [Except.ok.injEq] at hgb2
    subst hgb2
    exact ⟨h.symm, rfl⟩

theorem forall2_satMono_map (f : Edge → Edge) (hf : ∀ e, satMono e (f e)) :
    ∀ l : List Edge, List.Forall₂ satMono l (l.map f) := by
  intro l
  induction l with
  | nil => exact List.Forall₂.nil
  | cons x xs ih => exact List.Forall₂.cons (hf x) ih

theorem filter_dst_map_frame (d2 : String) (f : Edge → Edge)
    (hdst : ∀ e, (f e).dst = e.dst) (hfix : ∀ e, e.dst = d2 → f e = e) :
    ∀ l : List Edge, (l.map f).filter (fun e => e.dst == d2) =
      l.filter (fun e => e.dst == d2) := by
  intro l
  induction l with
  | nil => rfl
  | cons x xs ih =>
    rw [List.map_cons, List.filter_cons, List.filter_cons]
    by_cases hx : x.dst = d2
    · rw [hfix x hx]
      simp only [hx, beq_self_eq_true, if_true, ih]
    · have h1 : ((f x).dst == d2) = false := by
        rw [hdst x]
        simp [hx]
      have h2 : (x.dst == d2) = false := by simp [hx]
      rw [h1, h2]
      simp only [Bool.false_eq_true, if_false]
      exact ih

theorem update_transition_sat_frame (g : WGraph) (src0 d : String) (k : Nat)
    (g1 : WGraph)
    (h : update_transition g src0 d k [("satisfied", Value.bool true)] = Except.ok g1) :
    g1.nodes = g.nodes ∧ g1.graphAttrs = g.graphAttrs ∧
    List.Forall₂ satMono g.edges g1.edges ∧
    (∀ d2, d2 ≠ d → edgesTo g1 d2 = edgesTo g d2) := by
  unfold update_transition at h
  cases hseq : get_transition g src0 d (some k) Value.null with
  | error er =>
    rw [hseq] at h
    exact Except.noConfusion h
  | ok seq =>
    rw [hseq] at h
    simp only [ok_bind, Except.ok.injEq] at h
    subst h
    have hdst : ∀ e : Edge, ((if e.src == src0 && e.dst == d && e.key == seq.key
        then { e with attrs := Attrs.setAll e.attrs [("satisfied", Value.bool true)] }
        else e) : Edge).dst = e.dst := by
      intro e
      by_cases hc : (e.src == src0 && e.dst == d && e.key == seq.key) = true
      · rw [if_pos hc]
      · rw [if_neg hc]
    refine ⟨rfl, rfl, ?_, ?_⟩
    · apply forall2_satMono_map
      intro e
      by_cases hc : (e.src == src0 && e.dst == d && e.key == seq.key) = true
      · rw [if_pos hc]
        exact ⟨rfl, rfl, rfl, Or.inr rfl⟩
      · rw [if_neg hc]
        exact satMono_refl e
    · intro d2 hne
      apply filter_dst_map_frame d2 _ hdst
      intro e hed
      have hno : (e.dst == d) = false := by
        rw [hed]
        simp
        exact hne
      simp [hno]

theorem markStep_frame (g : WGraph) (task_id : String) (e : Edge) (g1 : WGraph)
    (h : markStep g task_id e = Except.ok g1) :
    g1.nodes = g.nodes ∧ g1.graphAttrs = g.graphAttrs ∧
    List.Forall₂ satMono g.edges g1.edges ∧
    (∀ d2, d2 ≠ e.dst → edgesTo g1 d2 = edgesTo g d2) := by
  unfold markStep at h
  by_cases hs : satP e = true
  · rw [if_pos (by rw [hs])] at h
    simp only [Except.ok.injEq] at h
    subst h
    exact ⟨rfl, rfl, forall2_satMono_refl _, fun _ _ => rfl⟩
  · rw [if_neg (by rw [Bool.not_eq_true] at hs; rw [hs]; exact Bool.false_ne_true)] at h
    exact update_transition_sat_frame g task_id e.dst e.key g1 h

theorem keepCheck_spec (g : WGraph) (d : String) (b : Bool)
    (hok : keepCheck g d = Except.ok b) :
    (hasBarrierB (barrierValOf g d) = false ∧ b = true) ∨
    (hasBarrierB (barrierValOf g d) = true ∧
      ∃ thr, thrOf (barrierValOf g d) (inCount g d) = Except.ok thr ∧
        b = decide (¬ (Int.ofNat (satCount g d) < thr))) := by
  unfold keepCheck at hok
  cases hhb : has_barrier g d with
  | error er =>
    rw [hhb] at hok
    exact Except.noConfusion hok
  | ok hb =>
    obtain ⟨hbv, hgb⟩ := has_barrier_ok_inv g d hb hhb
    rw [hhb] at hok
    simp only [ok_bind] at hok
    cases hb with
    | false =>
      simp only [Bool.false_eq_true, if_false, Except.ok.injEq] at hok
      exact Or.inl ⟨hbv.symm, hok.symm⟩
    | true =>
      simp only [if_true] at hok
      rw [hgb] at hok
      simp only [ok_bind] at hok
      rw [get_prev_transitions_eq_edgesTo] at hok
      cases hthr : thrOf (barrierValOf g d) (edgesTo g d).length with
      | error er =>
        rw [hthr] at hok
        exact Except.noConfusion hok
      | ok thr =>
        rw [hthr] at hok
        simp only [ok_bind, Except.ok.injEq] at hok
        refine Or.inr ⟨hbv.symm, thr, hthr, hok.symm⟩

theorem gntLoop_cons_inv (task_id : String) (e : Edge) (rest : List Edge)
    (g : WGraph) (ts : List (String × Value)) (g2 : WGraph)
    (hok : gntLoop task_id (e :: rest) g = Except.ok (ts, g2)) :
    ∃ g1 keep,
      markStep g task_id e = Except.ok g1 ∧
      keepCheck g1 e.dst = Except.ok keep ∧
      ((keep = false ∧ gntLoop task_id rest g1 = Except.ok (ts, g2)) ∨
       (keep = true ∧ ∃ nm ts2,
          Attrs.item (taskDict g1 e.dst) "name" = Except.ok nm ∧
          gntLoop task_id rest g1 = Except.ok (ts2, g2) ∧
          ts = (e.dst, nm) :: ts2)) := by
  rw [gntLoop] at hok
  cases hg1 : markStep g task_id e with
  | error er =>
    rw [hg1] at hok
    exact Except.noConfusion hok
  | ok g1 =>
    rw [hg1] at hok
    simp only [ok_bind] at hok
    cases hkeep : keepCheck g1 e.dst with
    | error er =>
      rw [hkeep] at hok
      exact Except.noConfusion hok
    | ok keep =>
      rw [hkeep] at hok
      simp only [ok_bind] at hok
      refine ⟨g1, keep, rfl, hkeep, ?_⟩
      cases keep with
      | false =>
        simp only [Bool.false_eq_true, if_false] at hok
        exact Or.inl ⟨rfl, hok⟩
      | true =>
        simp only [if_true] at hok
        cases hgt : get_task g1 e.dst with
        | error er =>
          rw [hgt] at hok
          exact Except.noConfusion hok
        | ok t =>
          rw [hgt] at hok
          simp only [ok_bind] at hok
          have ht := (get_task_ok_inv g1 e.dst t hgt).1
          subst ht
          cases hnm : Attrs.item (taskDict g1 e.dst) "name" with
          | error er =>
            rw [hnm] at hok
            exact Except.noConfusion hok
          | ok nm =>
            rw [hnm] at hok
            simp only [ok_bind] at hok
            cases hrec : gntLoop task_id rest g1 with
            | error er =>
              rw [hrec] at hok
              exact Except.noConfusion hok
            | ok p =>
              obtain ⟨ts2, g2x⟩ := p
              rw [hrec] at hok
              simp only [ok_bind, Except.ok.injEq, Prod.mk.injEq] at hok
              obtain ⟨hts, hg2⟩ := hok
              subst hg2
              exact Or.inr ⟨rfl, nm, ts2, rfl, rfl, hts.symm⟩

theorem gntLoop_frame (task_id : String) :
    ∀ (l : List Edge) (g : WGraph) (ts : List (String × Value)) (g2 : WGraph),
      gntLoop task_id l g = Except.ok (ts, g2) →
      g2.nodes = g.nodes ∧ g2.graphAttrs = g.graphAttrs ∧
      List.Forall₂ satMono g.edges g2.edges := by
  intro l
  induction l with
  | nil =>
    intro g ts g2 hok
    rw [gntLoop] at hok
    simp only [Except.ok.injEq, Prod.mk.injEq] at hok
    rw [← hok.2]
    exact ⟨rfl, rfl, forall2_satMono_refl _⟩
  | cons e rest ih =>
    intro g ts g2 hok
    obtain ⟨g1, keep, hg1, hkeep, hbranch⟩ :=
      gntLoop_cons_inv task_id e rest g ts g2 hok
    obtain ⟨hn1, ha1, hf1, _⟩ := markStep_frame g task_id e g1 hg1
    have hrec : gntLoop task_id rest g1 = Except.ok (ts, g2) ∨
        ∃ ts2, gntLoop task_id rest g1 = Except.ok (ts2, g2) := by
      rcases hbranch with ⟨_, h⟩ | ⟨_, nm, ts2, _, h, _⟩
      · exact Or.inl h
      · exact Or.inr ⟨ts2, h⟩
    have hstep : g2.nodes = g1.nodes ∧ g2.graphAttrs = g1.graphAttrs ∧
        List.Forall₂ satMono g1.edges g2.edges := by
      rcases hrec with h | ⟨ts2, h⟩
      · exact ih g1 ts g2 h
      · exact ih g1 ts2 g2 h
    exact ⟨hstep.1.trans hn1, hstep.2.1.trans ha1,
      forall2_satMono_trans hf1 hstep.2.2⟩

theorem gntLoop_dst_frame (task_id d : String) :
    ∀ (l : List Edge) (g : WGraph) (ts : List (String × Value)) (g2 : WGraph),
      gntLoop task_id l g = Except.ok (ts, g2) →
      (∀ e ∈ l, e.dst ≠ d) → edgesTo g2 d = edgesTo g d := by
  intro l
  induction l with
  | nil =>
    intro g ts g2 hok _
    rw [gntLoop] at hok
    simp only [Except.ok.injEq, Prod.mk.injEq] at hok
    rw [← hok.2]
  | cons e rest ih =>
    intro g ts g2 hok hnd
    obtain ⟨g1, keep, hg1, hkeep, hbranch⟩ :=
      gntLoop_cons_inv task_id e rest g ts g2 hok
    obtain ⟨_, _, _, hframe⟩ := markStep_frame g task_id e g1 hg1
    have h1 : edgesTo g1 d = edgesTo g d :=
      hframe d (fun hh => hnd e (by simp) (hh ▸ rfl))
    have h2 : edgesTo g2 d = edgesTo g1 d := by
      rcases hbranch with ⟨_, h⟩ | ⟨_, nm, ts2, _, h, _⟩
      · exact ih g1 ts g2 h (fun x hx => hnd x (by simp [hx]))
      · exact ih g1 ts2 g2 h (fun x hx => hnd x (by simp [hx]))
    exact h2.trans h1

theorem hasBarrierB_int (n : Int) : hasBarrierB (Value.int n) = true := by
  simp [hasBarrierB]

theorem hasBarrierB_star : hasBarrierB (Value.str "*") = true := by
  simp [hasBarrierB]

theorem thrOf_int (n : Int) (c : Nat) : thrOf (Value.int n) c = Except.ok n := by
  simp [thrOf, pyIntOf]

theorem thrOf_star (c : Nat) : thrOf (Value.str "*") c = Except.ok (Int.ofNat c) := by
  simp [thrOf]

theorem gntLoop_mem_reaches_threshold (task_id d : String) :
    ∀ (l : List Edge) (g : WGraph) (ts : List (String × Value)) (g2 : WGraph)
      (nm : Value) (thr : Int),
      gntLoop task_id l g = Except.ok (ts, g2) →
      (d, nm) ∈ ts →
      hasBarrierB (barrierValOf g d) = true →
      thrOf (barrierValOf g d) (inCount g d) = Except.ok thr →
      thr ≤ Int.ofNat (satCount g2 d) := by
  intro l
  induction l with
  | nil =>
    intro g ts g2 nm thr hok hmem _ _
    rw [gntLoop] at hok
    simp only [Except.ok.injEq, Prod.mk.injEq] at hok
    rw [← hok.1] at hmem
    exact absurd hmem (List.not_mem_nil _)
  | cons e rest ih =>
    intro g ts g2 nm thr hok hmem hbar hthr
    obtain ⟨g1, keep, hg1, hkeep, hbranch⟩ :=
      gntLoop_cons_inv task_id e rest g ts g2 hok
    obtain ⟨hn1, ha1, hf1, _⟩ := markStep_frame g task_id e g1 hg1
    have hbar1 : barrierValOf g1 d = barrierValOf g d := barrierValOf_nodes_eq g g1 d hn1
    have hin1 : inCount g1 d = inCount g d := (inCount_eq_of_forall2 g g1 d hf1).symm
    have hbar1t : hasBarrierB (barrierValOf g1 d) = true := by
      rw [hbar1]; exact hbar
    have hthr1 : thrOf (barrierValOf g1 d) (inCount g1 d) = Except.ok thr := by
      rw [hbar1, hin1]; exact hthr
    rcases hbranch with ⟨hkf, hrec⟩ | ⟨hkt, nm2, ts2, hnm, hrec, hts⟩
    · exact ih g1 ts g2 nm thr hrec hmem hbar1t hthr1
    · subst hts
      rcases List.mem_cons.mp hmem with hhead | htail
      · have hd : e.dst = d := (congrArg Prod.fst hhead).symm
        rcases keepCheck_spec g1 e.dst keep hkeep with ⟨hnb, _⟩ | ⟨hbt, thr2, hthr2, hb⟩
        · rw [hd, hbar1] at hnb
          rw [hnb] at hbar
          exact absurd hbar (by simp)
        · rw [hd] at hthr2 hb
          rw [hthr1] at hthr2
          simp only [Except.ok.injEq] at hthr2
          rw [hkt] at hb
          have hprop : ¬ (Int.ofNat (satCount g1 d) < thr2) :=
            of_decide_eq_true hb.symm
          have hrest := gntLoop_frame task_id rest g1 ts2 g2 hrec
          have hmono : satCount g1 d ≤ satCount g2 d :=
            satCount_mono g1 g2 d hrest.2.2
          simp only [Int.ofNat_eq_coe] at hprop ⊢
          omega
      · exact ih g1 ts2 g2 nm thr hrec htail hbar1t hthr1

theorem gntLoop_threshold_mem (task_id d : String) :
    ∀ (l : List Edge) (g : WGraph) (ts : List (String × Value)) (g2 : WGraph)
      (thr : Int),
      gntLoop task_id l g = Except.ok (ts, g2) →
      (∃ e ∈ l, e.dst = d) →
      hasBarrierB (barrierValOf g d) = true →
      thrOf (barrierValOf g d) (inCount g d) = Except.ok thr →
      thr ≤ Int.ofNat (satCount g2 d) →
      ∃ nm, (d, nm) ∈ ts := by
  intro l
  induction l with
  | nil =>
    intro g ts g2 thr _ hex _ _ _
    obtain ⟨e, he, _⟩ := hex
    exact absurd he (List.not_mem_nil _)
  | cons e rest ih =>
    intro g ts g2 thr hok hex hbar hthr hsat
    obtain ⟨g1, keep, hg1, hkeep, hbranch⟩ :=
      gntLoop_cons_inv task_id e rest g ts g2 hok
    obtain ⟨hn1, ha1, hf1, _⟩ := markStep_frame g task_id e g1 hg1
    have hbar1 : barrierValOf g1 d = barrierValOf g d := barrierValOf_nodes_eq g g1 d hn1
    have hin1 : inCount g1 d = inCount g d := (inCount_eq_of_forall2 g g1 d hf1).symm
    have hbar1t : hasBarrierB (barrierValOf g1 d) = true := by
      rw [hbar1]; exact hbar
    have hthr1 : thrOf (barrierValOf g1 d) (inCount g1 d) = Except.ok thr := by
      rw [hbar1, hin1]; exact hthr
    by_cases hrestd : ∃ e2 ∈ rest, e2.dst = d
    · rcases hbranch with ⟨hkf, hrec⟩ | ⟨hkt, nm2, ts2, hnm, hrec, hts⟩
      · exact ih g1 ts g2 thr hrec hrestd hbar1t hthr1 hsat
      · obtain ⟨nm, hmem⟩ := ih g1 ts2 g2 thr hrec hrestd hbar1t hthr1 hsat
        exact ⟨nm, by rw [hts]; exact List.mem_cons_of_mem _ hmem⟩
    · have hed : e.dst = d := by
        obtain ⟨e2, he2, hd2⟩ := hex
        rcases List.mem_cons.mp he2 with h | h
        · rw [h] at hd2
          exact hd2
        · exact absurd ⟨e2, h, hd2⟩ hrestd
      have hnod : ∀ e2 ∈ rest, e2.dst ≠ d := fun e2 h2 hdd => hrestd ⟨e2, h2, hdd⟩
      have hrec_eq : edgesTo g2 d = edgesTo g1 d := by
        rcases hbranch with ⟨_, hrec⟩ | ⟨_, nm2, ts2, _, hrec, _⟩
        · exact gntLoop_dst_frame task_id d rest g1 ts g2 hrec hnod
        · exact gntLoop_dst_frame task_id d rest g1 ts2 g2 hrec hnod
      have hsat1 : satCount g2 d = satCount g1 d := by
        unfold satCount
        rw [hrec_eq]
      rcases keepCheck_spec g1 e.dst keep hkeep with ⟨hnb, _⟩ | ⟨hbt, thr2, hthr2, hb⟩
      · rw [hed, hbar1] at hnb
        rw [hnb] at hbar
        exact absurd hbar (by simp)
      · rw [hed] at hthr2 hb
        rw [hthr1] at hthr2
        simp only [Except.ok.injEq] at hthr2
        have hkt : keep = true := by
          rw [hb]
          apply decide_eq_true
          rw [hsat1] at hsat
          simp only [Int.ofNat_eq_coe] at hsat ⊢
          omega
        rcases hbranch with ⟨hkf, _⟩ | ⟨_, nm2, ts2, _, _, hts⟩
        · rw [hkt] at hkf
          exact absurd hkf (by simp)
        · refine ⟨nm2, ?_⟩
          rw [hts, hed]
          exact List.mem_cons_self _ _

theorem gntLoop_nobarrier_mem (task_id d : String) :
    ∀ (l : List Edge) (g : WGraph) (ts : List (String × Value)) (g2 : WGraph),
      gntLoop task_id l g = Except.ok (ts, g2) →
      (∃ e ∈ l, e.dst = d) →
      hasBarrierB (barrierValOf g d) = false →
      ∃ nm, (d, nm) ∈ ts := by
  intro l
  induction l with
  | nil =>
    intro g ts g2 _ hex _
    obtain ⟨e, he, _⟩ := hex
    exact absurd he (List.not_mem_nil _)
  | cons e rest ih =>
    intro g ts g2 hok hex hbar
    obtain ⟨g1, keep, hg1, hkeep, hbranch⟩ :=
      gntLoop_cons_inv task_id e rest g ts g2 hok
    obtain ⟨hn1, ha1, hf1, _⟩ := markStep_frame g task_id e g1 hg1
    have hbar1 : barrierValOf g1 d = barrierValOf g d := barrierValOf_nodes_eq g g1 d hn1
    by_cases hed : e.dst = d
    · rcases keepCheck_spec g1 e.dst keep hkeep with ⟨hnb, hkt⟩ | ⟨hbt, _⟩
      · rcases hbranch with ⟨hkf, _⟩ | ⟨_, nm2, ts2, _, _, hts⟩
        · rw [hkt] at hkf
          exact absurd hkf (by simp)
        · refine ⟨nm2, ?_⟩
          rw [hts, hed]
          exact List.mem_cons_self _ _
      · rw [hed, hbar1] at hbt
        rw [hbt] at hbar
        exact absurd hbar (by simp)
    · have hrestd : ∃ e2 ∈ rest, e2.dst = d := by
        obtain ⟨e2, he2, hd2⟩ := hex
        rcases List.mem_cons.mp he2 with h | h
        · rw [h] at hd2
          exact absurd hd2 hed
        · exact ⟨e2, h, hd2⟩
      have hbar1f : hasBarrierB (barrierValOf g1 d) = false := by
        rw [hbar1]; exact hbar
      rcases hbranch with ⟨_, hrec⟩ | ⟨_, nm2, ts2, _, hrec, hts⟩
      · exact ih g1 ts g2 hrec hrestd hbar1f
      · obtain ⟨nm, hmem⟩ := ih g1 ts2 g2 hrec hrestd hbar1f
        exact ⟨nm, by rw [hts]; exact List.mem_cons_of_mem _ hmem⟩

/-- C1: in `get_next_tasks`, for every fired transition (member of the
fired `outbounds` list) whose destination carries a barrier: a positive
integer barrier `n` admits the destination into the result exactly when at
least `n` of its inbound transitions are marked satisfied (in the returned
graph, which the per-edge checks converge to), the wildcard barrier
exactly when all of them are, and a destination with no barrier is
included as soon as one of its inbound transitions fires. -/
theorem get_next_tasks_barrier_spec (evs : List Evaluator) (g : WGraph)
    (task_id : String) (context : Value) (res : List (String × Value)) (g2 : WGraph)
    (st : Value) (outs : List Edge) (e : Edge)
    (hok : get_next_tasks evs g task_id context = Except.ok (res, g2))
    (hst : Attrs.get (taskDict g task_id) "state" = some st)
    (hcomp : st ∈ completedStateValues)
    (hfired : firedOf evs g task_id (mergedCtx g context) = Except.ok outs)
    (he : e ∈ outs) :
    (∀ n : Int, barrierValOf g e.dst = Value.int n → 0 < n →
      ((∃ nm, (e.dst, nm) ∈ res) ↔ n ≤ Int.ofNat (satCount g2 e.dst))) ∧
    (barrierValOf g e.dst = Value.str "*" →
      ((∃ nm, (e.dst, nm) ∈ res) ↔ satCount g2 e.dst = inCount g e.dst)) ∧
    (hasBarrierB (barrierValOf g e.dst) = false → ∃ nm, (e.dst, nm) ∈ res) := by
  cases hna : nodeAttrs? g task_id with
  | none =>
    exfalso
    unfold taskDict at hst
    rw [hna] at hst
    simp [Attrs.setAll, Attrs.get] at hst
  | some a =>
    have hitem : Attrs.item (taskDict g task_id) "state" = Except.ok st := by
      unfold Attrs.item
      rw [hst]
    unfold get_next_tasks at hok
    rw [get_task_of_some g task_id a hna] at hok
    simp only [ok_bind] at hok
    rw [hitem] at hok
    simp only [ok_bind] at hok
    rw [if_pos hcomp, hfired] at hok
    simp only [ok_bind] at hok
    cases hloop : gntLoop task_id outs g with
    | error er =>
      rw [hloop] at hok
      exact Except.noConfusion hok
    | ok p =>
      obtain ⟨ts, g2x⟩ := p
      rw [hloop] at hok
      simp only [ok_bind, Except.ok.injEq, Prod.mk.injEq] at hok
      obtain ⟨hres, hg2⟩ := hok
      rw [hg2] at hloop
      have hexiff : (∃ nm, (e.dst, nm) ∈ res) ↔ (∃ nm, (e.dst, nm) ∈ ts) :=
        exists_congr (fun nm => by rw [← hres]; exact mem_sortByLt _ _ ts)
      have hframe := gntLoop_frame task_id outs g ts g2 hloop
      refine ⟨?_, ?_, ?_⟩
      · intro n hbv hpos
        rw [hexiff]
        constructor
        · rintro ⟨nm, hmem⟩
          exact gntLoop_mem_reaches_threshold task_id e.dst outs g ts g2 nm n hloop
            hmem (by rw [hbv]; exact hasBarrierB_int n)
            (by rw [hbv]; exact thrOf_int n _)
        · intro hle
          exact gntLoop_threshold_mem task_id e.dst outs g ts g2 n hloop
            ⟨e, he, rfl⟩ (by rw [hbv]; exact hasBarrierB_int n)
            (by rw [hbv]; exact thrOf_int n _) hle
      · intro hbv
        rw [hexiff]
        have hinEq : inCount g e.dst = inCount g2 e.dst :=
          inCount_eq_of_forall2 g g2 e.dst hframe.2.2
        constructor
        · rintro ⟨nm, hmem⟩
          have h1 := gntLoop_mem_reaches_threshold task_id e.dst outs g ts g2 nm
            (Int.ofNat (inCount g e.dst)) hloop hmem
            (by rw [hbv]; exact hasBarrierB_star) (by rw [hbv]; exact thrOf_star _)
          have h2 : satCount g2 e.dst ≤ inCount g2 e.dst := satCount_le_inCount g2 e.dst
          simp only [Int.ofNat_eq_coe] at h1
          omega
        · intro heq
          apply gntLoop_threshold_mem task_id e.dst outs g ts g2
            (Int.ofNat (inCount g e.dst)) hloop ⟨e, he, rfl⟩
            (by rw [hbv]; exact hasBarrierB_star) (by rw [hbv]; exact thrOf_star _)
          simp only [Int.ofNat_eq_coe]
          omega
      · intro hnb
        rw [hexiff]
        exact gntLoop_nobarrier_mem task_id e.dst outs g ts g2 hloop ⟨e, he, rfl⟩ hnb

/-- Witness for C1 on `wgC1`: after `A` completes, barrier-2 task `D`
(one of two inbound transitions satisfied) is excluded — the biconditional
instantiated here has both sides false — and barrier-free `B` is
included. -/
theorem get_next_tasks_barrier_spec_witness :
    ((∃ nm, (("D" : String), nm) ∈ ([(("B" : String), Value.str "B")] :
        List (String × Value))) ↔
      (2 : Int) ≤ Int.ofNat (satCount wgC1out "D")) ∧
    (∃ nm, (("B" : String), nm) ∈ ([(("B" : String), Value.str "B")] :
        List (String × Value))) :=
  ⟨(get_next_tasks_barrier_spec [] wgC1 "A" Value.null [("B", Value.str "B")] wgC1out
      (Value.str "succeeded") [eAB, eAD] eAD (by decide) (by decide) (by decide)
      (by decide) (by decide)).1 2 (by decide) (by decide),
   (get_next_tasks_barrier_spec [] wgC1 "A" Value.null [("B", Value.str "B")] wgC1out
      (Value.str "succeeded") [eAB, eAD] eAB (by decide) (by decide) (by decide)
      (by decide) (by decide)).2.2 (by decide)⟩

end Orchestra
